import Mathlib

/-!
Verification of the SQL guardrail and engine-adaptation layer of the
whyline-denver repository.

The repository contains two revisions of the guardrail module:
`src/whylinedenver/sql_guardrails.py` (namespace `whylinedenver` below) and
`src/whyline/sql_guardrails.py` (namespace `whyline` below), plus the engine
adapter `adapt_sql_for_engine` in the corresponding `llm.py` files.  The
modules treat SQL as plain text and validate it with Python regular
expressions; we embed each regular expression as an explicit character-list
scanner with Python `re` semantics (leftmost match, non-overlapping scanning,
the concrete backtracking order of the patterns at hand), and each Python
function as a Lean function over `List Char`.

Python `\w` and `str.upper()/lower()` are modelled on ASCII (all inputs in the
repository are ASCII); `\s` is modelled as Python's six ASCII whitespace
characters.  Python sets are modelled as lists with membership semantics;
where the code renders a set into an error message it sorts it first
(`sorted(...)`), which we mirror with an insertion sort on code points, so no
set-iteration order is observable in any modelled message except the denylist
loop, which we model in the textual order of the source.
-/

set_option maxRecDepth 20000

/-- Python's `\s` (ASCII): space, tab, newline, carriage return, vertical tab,
form feed. -/
def pySpace (c : Char) : Bool :=
  c.toNat = 32 || c.toNat = 9 || c.toNat = 10 || c.toNat = 13 ||
  c.toNat = 11 || c.toNat = 12

/-- Python's `\w` on ASCII: letters, digits, underscore. -/
def wordChar (c : Char) : Bool :=
  (65 ≤ c.toNat && c.toNat ≤ 90) || (97 ≤ c.toNat && c.toNat ≤ 122) ||
  (48 ≤ c.toNat && c.toNat ≤ 57) || c.toNat = 95

/-- A character of the regex class `[\w-]` (word character or hyphen). -/
def hyphWord (c : Char) : Bool :=
  wordChar c || c.toNat = 45

/-- ASCII decimal digit (`\d`). -/
def isDigitC (c : Char) : Bool :=
  48 ≤ c.toNat && c.toNat ≤ 57

/-- The backtick character (written via its code point). -/
def btick : Char := Char.ofNat 96

/-- ASCII upper-casing of one character (Python `str.upper` on ASCII). -/
def upC (c : Char) : Char :=
  if 97 ≤ c.toNat && c.toNat ≤ 122 then Char.ofNat (c.toNat - 32) else c

/-- ASCII lower-casing of one character (Python `str.lower` on ASCII). -/
def lowC (c : Char) : Char :=
  if 65 ≤ c.toNat && c.toNat ≤ 90 then Char.ofNat (c.toNat + 32) else c

/-- Upper-case a character list. -/
def upperL (l : List Char) : List Char := l.map upC

/-- Lower-case a character list. -/
def lowerL (l : List Char) : List Char := l.map lowC

/-- Shorthand: the character data of a string literal. -/
def toL (s : String) : List Char := s.data

/-- `isPrefixL w s`: `w` is a prefix of `s` (decidable, executable). -/
def isPrefixL : List Char → List Char → Bool
  | [], _ => true
  | _ :: _, [] => false
  | a :: w, b :: s => a = b && isPrefixL w s

/-- Case-insensitive literal match: the first `w.length` characters of `s`,
upper-cased, equal `w` (`w` is given in upper case). -/
def matchCI (w s : List Char) : Bool :=
  upperL (s.take w.length) = w

/-- Strip all leading and trailing backticks (Python `str.strip("`")`). -/
def stripBT (l : List Char) : List Char :=
  ((((l.dropWhile (fun c => c = btick)).reverse).dropWhile
      (fun c => c = btick)).reverse)

/-- Remove trailing characters satisfying `p` (the right half of Python
`str.strip()`), defined recursively to ease induction. -/
def rstripP (p : Char → Bool) : List Char → List Char
  | [] => []
  | c :: rest =>
    match rstripP p rest, p c with
    | [], true => []
    | r, _ => c :: r

/-- Python `str.strip()` (whitespace at both ends). -/
def pystrip (l : List Char) : List Char :=
  rstripP pySpace (l.dropWhile pySpace)

/-- Python `str.lstrip()`. -/
def pylstrip (l : List Char) : List Char := l.dropWhile pySpace

/-- Python `str.split(sep)` for a single separator character: every separator
splits, empty pieces are kept. -/
def splitOnC (sep : Char) : List Char → List (List Char)
  | [] => [[]]
  | c :: rest =>
    let r := splitOnC sep rest
    if c = sep then [] :: r
    else
      match r with
      | [] => [[c]]
      | piece :: more => (c :: piece) :: more

/-- Fuel-based digit writer; the wrapper supplies enough fuel, so the
`fuel = 0` case is never reached. -/
def natDigitsF : Nat → Nat → List Char
  | 0, _ => []
  | fuel + 1, n =>
    if n < 10 then [Char.ofNat (48 + n)]
    else natDigitsF fuel (n / 10) ++ [Char.ofNat (48 + n % 10)]

/-- Decimal digits of a natural number (the characters Python's f-string
interpolation produces for an `int`). -/
def natDigits (n : Nat) : List Char := natDigitsF (n + 1) n

/-- Lexicographic comparison of character lists by code point (Python's `<`
on strings, used by `sorted`). -/
def lexLe : List Char → List Char → Bool
  | [], _ => true
  | _ :: _, [] => false
  | a :: x, b :: y =>
    if a.toNat < b.toNat then true
    else if a.toNat = b.toNat then lexLe x y
    else false

/-- Insert into a `lexLe`-sorted list. -/
def insLex (a : List Char) : List (List Char) → List (List Char)
  | [] => [a]
  | b :: rest => if lexLe a b then a :: b :: rest else b :: insLex a rest

/-- Insertion sort by `lexLe` (models Python `sorted` on a set of strings). -/
def sortLex : List (List Char) → List (List Char)
  | [] => []
  | a :: rest => insLex a (sortLex rest)

/-- Generic scanner without boundary tracking: does `f` match at some suffix
of `s`?  This is `re.search` for a pattern with no leading `\b`. -/
def scanNoB (f : List Char → Bool) : List Char → Bool
  | [] => f []
  | c :: rest => f (c :: rest) || scanNoB f rest

/-- Generic scanner with word-boundary tracking: does `f` match at some suffix
of `s` whose preceding character is not a word character?  `pnw` says whether
the (virtual) character before the current position is a non-word character
(true at the very start).  This is `re.search` for a pattern of the shape
`\bW...` whose first literal character is a word character. -/
def scanB (f : List Char → Bool) : List Char → Bool → Bool
  | [], _ => false
  | c :: rest, pnw => (pnw && f (c :: rest)) || scanB f rest (!wordChar c)

/-- Substring test (Python's `in` on strings). -/
def infixB (w s : List Char) : Bool :=
  scanNoB (isPrefixL w) s

/-- Head of the pattern `\bKW\b` at a fixed position: `KW` is a prefix here
and the following character (if any) is not a word character.  (`kw` is a
non-empty all-word-character keyword, so only the left boundary needs the
scanner's flag.) -/
def boundedAt (kw : List Char) (s : List Char) : Bool :=
  isPrefixL kw s &&
    (match s.drop kw.length with
     | [] => true
     | c :: _ => !wordChar c)

/-- `re.search(r"\bKW\b", s)` for an upper-case all-letter keyword `kw`,
applied to an (already upper-cased) text `s`. -/
def wordOccurs (kw s : List Char) : Bool :=
  scanB (boundedAt kw) s true

/-- Head of `LIMIT\s+\d+` (case-insensitive) at a fixed position. -/
def limitHead (s : List Char) : Bool :=
  matchCI (toL "LIMIT") s &&
    (let t := s.drop 5
     let sp := t.takeWhile pySpace
     !(sp.isEmpty) &&
       (match t.dropWhile pySpace with
        | [] => false
        | c :: _ => isDigitC c))

/-- `LIMIT_PATTERN.search`: `re.search(r"\bLIMIT\s+(\d+)", sql, IGNORECASE)`. -/
def limitSearch (s : List Char) : Bool :=
  scanB limitHead s true

/-!
## The table-reference pattern

`TABLE_PATTERN` (both guardrail modules and `whyline/llm.py`):
`\b(?:FROM|JOIN)\s+((?:`[^`]+`|[\w-]+)(?:\.(?:`[^`]+`|[\w-]+)){0,2})`,
case-insensitive; the `llm.py` variant adds an optional trailing group
`(?P<alias>\s+AS\s+\w+|\s+\w+)?`.  We implement the (deterministic)
backtracking behaviour of this pattern: `\s+` must stop at the first
non-space because no segment starts with a space, a backtick-quoted segment
is forced to end at the first closing backtick, and a bare segment is a
maximal `[\w-]+` run because nothing that follows it can consume a word
character or hyphen.
-/

/-- Length of one segment `` `[^`]+` `` or `[\w-]+` at the head of `u`
(`none` if no segment matches here). -/
def parseSegLen (u : List Char) : Option Nat :=
  match u with
  | [] => none
  | c :: rest =>
    if c = btick then
      let innerLen := (rest.takeWhile (fun d => !(d = btick))).length
      if innerLen = 0 then none
      else
        match (rest.drop innerLen).head? with
        | some d => if d = btick then some (innerLen + 2) else none
        | none => none
    else
      let runLen := (u.takeWhile hyphWord).length
      if runLen = 0 then none else some runLen

/-- Additional length contributed by up to `remaining` repetitions of
`\.(?:`[^`]+`|[\w-]+)` at the head of `u`. -/
def parseDotSegs (u : List Char) : Nat → Nat
  | 0 => 0
  | remaining + 1 =>
    match u.head? with
    | some c =>
      if c = '.' then
        match parseSegLen (u.drop 1) with
        | some segLen => 1 + segLen + parseDotSegs (u.drop (1 + segLen)) remaining
        | none => 0
      else 0
    | none => 0

/-- Length of the whole captured table token (one segment plus up to two
dotted continuations) at the head of `u`. -/
def tokLenAt (u : List Char) : Option Nat :=
  match parseSegLen u with
  | some segLen => some (segLen + parseDotSegs (u.drop segLen) 2)
  | none => none

/-- Attempt `(?:FROM|JOIN)\s+<token>` at the start of `s` (the leading `\b`
is handled by the scanner's flag).  Returns the whitespace-run length and the
token length. -/
def tableMatchAt (s : List Char) : Option (Nat × Nat) :=
  if matchCI (toL "FROM") s || matchCI (toL "JOIN") s then
    let t := s.drop 4
    let spLen := (t.takeWhile pySpace).length
    if spLen = 0 then none
    else
      match tokLenAt (t.drop spLen) with
      | some tk => some (spLen, tk)
      | none => none
  else none

/-- Length of the optional alias group `(?P<alias>\s+AS\s+\w+|\s+\w+)?` of
the `llm.py` table pattern at the head of `u` (0 when the group matches
empty). -/
def aliasLenAt (u : List Char) : Nat :=
  let spLen := (u.takeWhile pySpace).length
  if spLen = 0 then 0
  else
    let v := u.drop spLen
    let alt1 :=
      if matchCI (toL "AS") v then
        let sp2 := ((v.drop 2).takeWhile pySpace).length
        if sp2 = 0 then none
        else
          let run := ((v.drop (2 + sp2)).takeWhile wordChar).length
          if run = 0 then none else some (spLen + 2 + sp2 + run)
      else none
    match alt1 with
    | some n => n
    | none =>
      let run2 := (v.takeWhile wordChar).length
      if run2 = 0 then 0 else spLen + run2

/-- One match of the table pattern: `pre` is the unmatched text before it,
`ms` the suffix of the scanned text at which the match begins, `sp`/`tok`/`al`
the lengths of the whitespace run, the captured token and the alias group
(`al = 0` for the guardrail pattern, which has no alias group). -/
structure TM where
  pre : List Char
  ms : List Char
  sp : Nat
  tok : Nat
  al : Nat
  deriving Repr, DecidableEq

/-- Total length of the match (`group(0)`). -/
def TM.k (m : TM) : Nat := 4 + m.sp + m.tok + m.al

/-- The matched `FROM`/`JOIN` text, in original case. -/
def TM.clause (m : TM) : List Char := m.ms.take 4

/-- The matched whitespace run. -/
def TM.spaces (m : TM) : List Char := (m.ms.drop 4).take m.sp

/-- The captured table token (`group("table")`/`group(1)`), raw text. -/
def TM.token (m : TM) : List Char := (m.ms.drop (4 + m.sp)).take m.tok

/-- The matched alias text (empty when the alias group matched empty). -/
def TM.aliasTxt (m : TM) : List Char :=
  (m.ms.drop (4 + m.sp + m.tok)).take m.al

/-- The whole matched text (`group(0)`). -/
def TM.group0 (m : TM) : List Char := m.ms.take m.k

/-- Prepend an unmatched character to a scan result. -/
def consPre (c : Char) : List TM × List Char → List TM × List Char
  | ([], trail) => ([], c :: trail)
  | (m :: ms, trail) => ({ m with pre := c :: m.pre } :: ms, trail)

/-- Fuel-based worker for the table-pattern scan; the wrapper supplies
`s.length` fuel and every step consumes at least one character, so the
`fuel = 0` case is reached only on the empty list. -/
def tableGoF (withAlias : Bool) : Nat → List Char → Bool → List TM × List Char
  | 0, _, _ => ([], [])
  | fuel + 1, s, pnw =>
    match s with
    | [] => ([], [])
    | c :: rest =>
      match (if pnw then tableMatchAt (c :: rest) else none) with
      | some (spLen, tk) =>
        let al := if withAlias
          then aliasLenAt ((c :: rest).drop (4 + spLen + tk)) else 0
        let m : TM := ⟨[], c :: rest, spLen, tk, al⟩
        let next := tableGoF withAlias fuel
          ((c :: rest).drop (4 + spLen + tk + al))
          (wordChar (m.group0.getLastD ' '))
        (m :: next.1, next.2)
      | none => consPre c (tableGoF withAlias fuel rest (!wordChar c))

/-- Non-overlapping left-to-right scan of the table pattern (`re.finditer` /
`re.sub` scanning).  `withAlias` selects the `llm.py` variant; `pnw` tracks
whether the previous character is a non-word character (the `\b`).  Every
match consumes at least one character, so `s.length` is enough fuel and the
fuel only forces termination. -/
def tableGo (withAlias : Bool) (s : List Char) (pnw : Bool) :
    List TM × List Char :=
  tableGoF withAlias s.length s pnw

/-- All matches of the guardrail `TABLE_PATTERN` over `s`. -/
def tableMatches (s : List Char) : List TM := (tableGo false s true).1

/-- The captured tokens of all guardrail `TABLE_PATTERN` matches
(`TABLE_PATTERN.finditer(sql)`, `.group(1)`). -/
def tableTokens (s : List Char) : List (List Char) :=
  (tableMatches s).map TM.token

/-- `TABLE_PATTERN.sub(f, s)` for the guardrail pattern: each match is
replaced by `f` applied to it, unmatched text is kept. -/
def tableSub (f : TM → List Char) (s : List Char) : List Char :=
  let r := tableGo false s true
  (r.1.map (fun m => m.pre ++ f m)).flatten ++ r.2

/-- All matches of the `llm.py` table pattern (with alias group) over `s`. -/
def tableMatchesA (s : List Char) : List TM := (tableGo true s true).1

/-- `TABLE_PATTERN.sub(f, s)` for the `llm.py` pattern. -/
def tableSubA (f : TM → List Char) (s : List Char) : List Char :=
  let r := tableGo true s true
  (r.1.map (fun m => m.pre ++ f m)).flatten ++ r.2

/-!
## The CTE patterns

`whylinedenver`: `\bWITH\s+(`[^`]+`|[a-zA-Z_][\w-]*)\s+AS\s*\(`,
`whyline`: `(?:\bWITH\b|,)\s+(`[^`]+`|[a-zA-Z_][\w-]*)\s+AS\s*\(`,
both case-insensitive, used with `findall` (the capture is the CTE name,
backticks included when quoted).  The `allowComma` flag selects the
`whyline` variant.
-/

/-- First character of a bare CTE name (`[a-zA-Z_]`). -/
def cteNameStart (c : Char) : Bool :=
  (65 ≤ c.toNat && c.toNat ≤ 90) || (97 ≤ c.toNat && c.toNat ≤ 122) ||
  c.toNat = 95

/-- Length of a CTE name `` `[^`]+` `` or `[a-zA-Z_][\w-]*` at the head of
`u`. -/
def cteNameLen (u : List Char) : Option Nat :=
  match u with
  | [] => none
  | c :: rest =>
    if c = btick then
      let innerLen := (rest.takeWhile (fun d => !(d = btick))).length
      if innerLen = 0 then none
      else
        match (rest.drop innerLen).head? with
        | some d => if d = btick then some (innerLen + 2) else none
        | none => none
    else
      if cteNameStart c then some (1 + (rest.takeWhile hyphWord).length)
      else none

/-- Attempt the tail `\s+(name)\s+AS\s*\(` of the CTE pattern at `u`.
Returns `(offset of the name within u, name length, total length consumed
from u)`. -/
def cteTailAt (u : List Char) : Option (Nat × Nat × Nat) :=
  let spLen := (u.takeWhile pySpace).length
  if spLen = 0 then none
  else
    match cteNameLen (u.drop spLen) with
    | none => none
    | some nameLen =>
      let v := u.drop (spLen + nameLen)
      let sp2 := (v.takeWhile pySpace).length
      if sp2 = 0 then none
      else
        if matchCI (toL "AS") (v.drop sp2) then
          let w := v.drop (sp2 + 2)
          let sp3 := (w.takeWhile pySpace).length
          match (w.drop sp3).head? with
          | some d =>
            if d = '(' then
              some (spLen, nameLen, spLen + nameLen + sp2 + 2 + sp3 + 1)
            else none
          | none => none
        else none

/-- Attempt the whole CTE pattern at the start of `s`.  Returns the name
offset, name length and total match length (positive by construction). -/
def cteMatchAt (allowComma : Bool) (pnw : Bool) (s : List Char) :
    Option (Nat × Nat × { k : Nat // 0 < k }) :=
  if pnw && matchCI (toL "WITH") s &&
      (match s.drop 4 with
       | [] => true
       | c :: _ => !wordChar c) then
    match cteTailAt (s.drop 4) with
    | some (off, len, consumed) => some (4 + off, len, ⟨4 + consumed, by omega⟩)
    | none =>
      -- the `WITH` alternative failed; the `,` alternative cannot start
      -- with `W`, so no match starts here
      none
  else
    if allowComma && s.head? = some ',' then
      match cteTailAt (s.drop 1) with
      | some (off, len, consumed) => some (1 + off, len, ⟨1 + consumed, by omega⟩)
      | none => none
    else none

/-- Fuel-based worker for the CTE scan. -/
def cteGoF (allowComma : Bool) : Nat → List Char → Bool → List (List Char)
  | 0, _, _ => []
  | fuel + 1, s, pnw =>
    match s with
    | [] => []
    | c :: rest =>
      match cteMatchAt allowComma pnw (c :: rest) with
      | some (off, len, k) =>
        ((c :: rest).drop off).take len ::
          cteGoF allowComma fuel ((c :: rest).drop k.val) false
      | none => cteGoF allowComma fuel rest (!wordChar c)

/-- `CTE_PATTERN.findall(s)` scan: the captured names of all non-overlapping
matches, raw (backticks included when quoted).  Every match consumes at
least one character, so `s.length` is enough fuel. -/
def cteGo (allowComma : Bool) (s : List Char) (pnw : Bool) :
    List (List Char) :=
  cteGoF allowComma s.length s pnw

/-- All raw CTE names of `s` under the given pattern variant. -/
def cteFindAll (allowComma : Bool) (s : List Char) : List (List Char) :=
  cteGo allowComma s true

/-!
## The DATE_SUB pattern (`llm.py`)

`DATE_SUB_PATTERN = DATE_SUB\(\s*(.+?)\s*,\s*INTERVAL\s+(\d+)\s+DAY\s*\)`,
case-insensitive.  `.` does not match a newline; `(.+?)` is lazy, and the
preceding `\s*` is greedy and backtracks only after the lazy group has
exhausted its possibilities, so the concrete search order at a match start
is: take the maximal whitespace run after `DATE_SUB(`, grow the lazy
expression one character at a time, and only then give back whitespace
characters one by one.
-/

/-- Match `\s*,\s*INTERVAL\s+(\d+)\s+DAY\s*\)` at the head of `t`.
Returns the captured digits and the total length consumed from `t`. -/
def dsTailAt (t : List Char) : Option (List Char × Nat) :=
  let sp1 := (t.takeWhile pySpace).length
  if (t.drop sp1).head? = some ',' then
    let u := t.drop (sp1 + 1)
    let sp2 := (u.takeWhile pySpace).length
    if matchCI (toL "INTERVAL") (u.drop sp2) then
      let v := u.drop (sp2 + 8)
      let sp3 := (v.takeWhile pySpace).length
      if sp3 = 0 then none
      else
        let digits := (v.drop sp3).takeWhile isDigitC
        if digits.length = 0 then none
        else
          let w := v.drop (sp3 + digits.length)
          let sp4 := (w.takeWhile pySpace).length
          if sp4 = 0 then none
          else
            if matchCI (toL "DAY") (w.drop sp4) then
              let x := w.drop (sp4 + 3)
              let sp5 := (x.takeWhile pySpace).length
              if (x.drop sp5).head? = some ')' then
                some (digits,
                  sp1 + 1 + sp2 + 8 + sp3 + digits.length + sp4 + 3 + sp5 + 1)
              else none
            else none
    else none
  else none

/-- Grow the lazy expression group `(.+?)` one character at a time; `eAcc`
holds the characters consumed so far.  Returns the captured expression, the
captured digits and the length consumed after the expression, for the first
(i.e. shortest) success. -/
def dsLazy (eAcc : List Char) : List Char → Option (List Char × List Char × Nat)
  | [] => none
  | c :: rest =>
    if c = '\n' then none
    else
      match dsTailAt rest with
      | some (digits, consumed) => some (eAcc ++ [c], digits, consumed)
      | none => dsLazy (eAcc ++ [c]) rest

/-- Try the part of the pattern after `DATE_SUB(` with the greedy leading
`\s*` bound to exactly `spLen` characters.  `u` is the text right after
`DATE_SUB(`.  Returns the captured expression and digits and the total
length of `u` consumed. -/
def dsAttempt (u : List Char) (spLen : Nat) :
    Option (List Char × List Char × Nat) :=
  match dsLazy [] (u.drop spLen) with
  | some (expr, digits, consumed) =>
    some (expr, digits, spLen + expr.length + consumed)
  | none => none

/-- Backtrack the greedy leading `\s*` downward from `spLen` to 0, taking the
first success. -/
def dsWithSpaces (u : List Char) : Nat → Option (List Char × List Char × Nat)
  | 0 => dsAttempt u 0
  | spLen + 1 =>
    match dsAttempt u (spLen + 1) with
    | some r => some r
    | none => dsWithSpaces u spLen

/-- Attempt the whole `DATE_SUB` pattern at the start of `s`.  Returns the
captured expression (`group(1)`), the captured digits (`group(2)`) and the
total match length (positive by construction). -/
def dsMatchAt (s : List Char) :
    Option (List Char × List Char × { k : Nat // 0 < k }) :=
  if matchCI (toL "DATE_SUB(") s then
    let u := s.drop 9
    match dsWithSpaces u ((u.takeWhile pySpace).length) with
    | some (expr, digits, consumed) =>
      some (expr, digits, ⟨9 + consumed, by omega⟩)
    | none => none
  else none

/-- Fuel-based worker for the `DATE_SUB` substitution. -/
def dsSubstF : Nat → List Char → List Char
  | 0, _ => []
  | fuel + 1, s =>
    match s with
    | [] => []
    | c :: rest =>
      match dsMatchAt (c :: rest) with
      | some (expr, digits, k) =>
        pystrip expr ++ toL " - INTERVAL '" ++ digits ++
          toL "' DAY" ++ dsSubstF fuel ((c :: rest).drop k.val)
      | none => c :: dsSubstF fuel rest

/-- `DATE_SUB_PATTERN.sub(_duckdb_date_sub_replacer, s)`: each match
`DATE_SUB(expr, INTERVAL n DAY)` becomes `expr.strip() - INTERVAL 'n' DAY`.
Every match consumes at least one character, so `s.length` is enough fuel. -/
def dsSubst (s : List Char) : List Char := dsSubstF s.length s

/-!
## Errors

`SqlValidationError` is raised with a formatted message; we model the raise
sites as a structured error plus a renderer producing the exact message text.
-/

/-- The structured form of every `SqlValidationError` raise site. -/
inductive GuardErr where
  | noSql
  | multipleStatements
  | cteWithoutSelect
  | notSelect
  | disallowedKeyword (kw : List Char)
  | unauthorizedTables (tables : List (List Char))
  | unauthorizedProjects (tokens : List (List Char))
  | unauthorizedDatasets (tokens : List (List Char))
  | partitionNoWhere (column : List Char)
  deriving Repr, DecidableEq

deriving instance DecidableEq for Except

/-- The exact message text of each raise site (lists of names arrive already
sorted, as the code sorts them inside the f-string). -/
def renderErr : GuardErr → List Char
  | .noSql => toL "No SQL provided."
  | .multipleStatements =>
    toL "Multiple SQL statements detected; only single SELECT queries are allowed."
  | .cteWithoutSelect => toL "CTE detected without a SELECT statement."
  | .notSelect => toL "Only SELECT statements are allowed."
  | .disallowedKeyword kw =>
    toL "Disallowed keyword detected: " ++ kw ++ toL "."
  | .unauthorizedTables tables =>
    toL "Query references unauthorized tables: " ++
      (tables.intersperse (toL ", ")).flatten ++
      toL ". Only app-approved marts may be queried."
  | .unauthorizedProjects tokens =>
    toL "Query references unauthorized project(s): " ++
      (tokens.intersperse (toL ", ")).flatten ++
      toL ". Only app-approved marts may be queried."
  | .unauthorizedDatasets tokens =>
    toL "Query references unauthorized dataset(s): " ++
      (tokens.intersperse (toL ", ")).flatten ++
      toL ". Only app-approved marts may be queried."
  | .partitionNoWhere column =>
    toL "The query touches `" ++ column ++
      toL "` but no WHERE clause was provided. Please filter to a recent date range to keep the query efficient."

/-!
## Shared pipeline stages

`_normalize`, `_ensure_single_statement`, `_ensure_read_only`,
`_ensure_limit` and `_suggest_partition_filter` are textually identical in
`whylinedenver/sql_guardrails.py` and `whyline/sql_guardrails.py`; they are
defined once here and used by both sanitizers.
-/

namespace guards

/-- The denylist, in the textual order of the source (the Python object is a
`set`, whose iteration order is unspecified; no theorem below depends on this
order except through an explicit uniqueness hypothesis). -/
def DENYLIST_KEYWORDS : List (List Char) :=
  [toL "INSERT", toL "UPDATE", toL "DELETE", toL "CREATE", toL "DROP",
   toL "ALTER", toL "MERGE", toL "TRUNCATE", toL "GRANT", toL "REVOKE",
   toL "CALL", toL "LOAD", toL "EXPORT", toL "COPY"]

/-- `_normalize`: reject empty input, strip outer whitespace, strip at most
one trailing semicolon (re-stripping afterwards). -/
def normalize (sql : List Char) : Except GuardErr (List Char) :=
  let trimmed := pystrip sql
  if trimmed = [] then .error .noSql
  else if trimmed.getLastD ' ' = ';' then .ok (pystrip trimmed.dropLast)
  else .ok trimmed

/-- `_ensure_single_statement`: any remaining semicolon is rejected. -/
def ensure_single_statement (sql : List Char) : Except GuardErr Unit :=
  if sql.contains ';' then .error .multipleStatements else .ok ()

/-- The denylist loop of `_ensure_read_only`: the first keyword (in list
order) occurring as a whole word is reported. -/
def denylistCheck (upper : List Char) : Except GuardErr Unit :=
  match DENYLIST_KEYWORDS.find? (fun kw => wordOccurs kw upper) with
  | some kw => .error (.disallowedKeyword kw)
  | none => .ok ()

/-- `_ensure_read_only`: the statement (left-stripped, upper-cased) must
start with `SELECT`, or with `WITH` and contain `SELECT` somewhere; then no
denylisted keyword may occur as a whole word. -/
def ensure_read_only (sql : List Char) : Except GuardErr Unit :=
  let upper := upperL (pylstrip sql)
  if isPrefixL (toL "WITH") upper then
    if infixB (toL "SELECT") upper then denylistCheck upper
    else .error .cteWithoutSelect
  else if isPrefixL (toL "SELECT") upper then denylistCheck upper
  else .error .notSelect

/-- `_ensure_limit`: append `\nLIMIT <maxRows>` when no `LIMIT <n>` token is
present. -/
def ensure_limit (sql : List Char) (maxRows : Nat) : List Char :=
  if limitSearch sql then sql else sql ++ toL "\nLIMIT " ++ natDigits maxRows

/-- `_suggest_partition_filter`: reject when some configured partition column
occurs (case-insensitively) in the SQL and `WHERE` occurs nowhere in it; the
first such column in sequence order is reported. -/
def suggest_partition_filter (sql : List Char) (cols : List (List Char)) :
    Except GuardErr Unit :=
  let upper := upperL sql
  match cols.find? (fun col =>
      infixB (upperL col) upper && !infixB (toL "WHERE") upper) with
  | some col => .error (.partitionNoWhere col)
  | none => .ok ()

end guards

namespace whylinedenver

/-- `GuardrailConfig` of `whylinedenver/sql_guardrails.py`. -/
structure GuardrailConfig where
  allowed_models : List (List Char)
  engine : List Char
  partition_columns : List (List Char) := [toL "service_date_mst"]
  enforce_limit : Nat := 5000

/-- `_validate_tables` (whylinedenver revision): the allowed base names are
each model stripped of outer backticks, lower-cased, split on dots, last
segment; each referenced token is split on dots (empty segments removed),
each segment stripped of backticks, and the last segment lower-cased; names
bound as CTEs are excluded; any remainder outside the allow-list is an
error listing the sorted unauthorized names. -/
def validate_tables (sql : List Char) (allowed_models : List (List Char)) :
    Except GuardErr Unit :=
  let allowed_base := allowed_models.map (fun m =>
    (splitOnC '.' (lowerL (stripBT m))).getLastD [])
  let referenced_base := (tableTokens sql).filterMap (fun raw =>
    let token := pystrip raw
    if token = [] then none
    else
      let parts := ((splitOnC '.' token).filter (fun p => p ≠ [])).map stripBT
      match parts.getLast? with
      | some t => some (lowerL t)
      | none => none)
  let ctes := (cteFindAll false sql).map (fun n => lowerL (stripBT n))
  let unauthorized := sortLex ((referenced_base.filter (fun t =>
    !(ctes.contains t) && !(allowed_base.contains t))).dedup)
  if unauthorized = [] then .ok ()
  else .error (.unauthorizedTables unauthorized)

/-- `sanitize_sql` (whylinedenver revision). -/
def sanitize_sql (sql : List Char) (config : GuardrailConfig) :
    Except GuardErr (List Char) :=
  match guards.normalize sql with
  | .error e => .error e
  | .ok parsed =>
    match guards.ensure_single_statement parsed with
    | .error e => .error e
    | .ok _ =>
      match guards.ensure_read_only parsed with
      | .error e => .error e
      | .ok _ =>
        match validate_tables parsed config.allowed_models with
        | .error e => .error e
        | .ok _ =>
          if config.engine = toL "bigquery" then
            match guards.suggest_partition_filter
                (guards.ensure_limit parsed config.enforce_limit)
                config.partition_columns with
            | .error e => .error e
            | .ok _ => .ok (guards.ensure_limit parsed config.enforce_limit)
          else .ok (guards.ensure_limit parsed config.enforce_limit)

end whylinedenver

namespace whyline

/-- `_split_identifier`: strip, split on dots discarding empty raw segments,
strip backticks and lower-case each segment, and interpret the last up to
three segments as `(project, dataset, table)`. -/
def split_identifier (identifier : List Char) :
    Option (List Char) × Option (List Char) × Option (List Char) :=
  let token := pystrip identifier
  if token = [] then (none, none, none)
  else
    let parts := ((splitOnC '.' token).filter (fun p => p ≠ [])).map
      (fun p => lowerL (stripBT p))
    match parts with
    | [] => (none, none, none)
    | [t] => (none, none, some t)
    | [d, t] => (none, some d, some t)
    | _ =>
      match parts.drop (parts.length - 3) with
      | [p, d, t] => (some p, some d, some t)
      | _ => (none, none, none)

/-- An extracted table reference: `(project, dataset, table, raw token)`. -/
structure RefId where
  project : Option (List Char)
  dataset : Option (List Char)
  table : List Char
  token : List Char
  deriving Repr, DecidableEq

/-- `_extract_referenced_identifiers`: all `FROM`/`JOIN` tokens split into
identifier triples, minus those whose table position matches a CTE name of
the same query. -/
def extract_referenced_identifiers (sql : List Char) : List RefId :=
  let identifiers := (tableTokens sql).filterMap (fun raw =>
    let token := pystrip raw
    if token = [] then none
    else
      match split_identifier token with
      | (proj, ds, some table) => some ⟨proj, ds, table, token⟩
      | _ => none)
  let ctes := (cteFindAll true sql).map (fun n => lowerL (stripBT n))
  identifiers.filter (fun r => !(ctes.contains r.table))

/-- `_compile_allowed_sets`: base names plus project/dataset sets, the
explicit sets (normalized, empty entries discarded) taking precedence over
the ones derived from the allowed models when non-empty. -/
def compile_allowed_sets (allowed_models : List (List Char))
    (explicit_projects explicit_datasets : Option (List (List Char))) :
    List (List Char) × List (List Char) × List (List Char) :=
  let allowed_base := allowed_models.filterMap (fun m =>
    match split_identifier m with
    | (_, _, some t) => if t = [] then none else some t
    | _ => none)
  let derived_projects := allowed_models.filterMap (fun m =>
    match split_identifier m with
    | (some p, _, _) => if p = [] then none else some p
    | _ => none)
  let derived_datasets := allowed_models.filterMap (fun m =>
    match split_identifier m with
    | (_, some d, _) => if d = [] then none else some d
    | _ => none)
  let ap := ((explicit_projects.getD []).filter (fun p => p ≠ [])).map
    (fun p => lowerL (stripBT p))
  let ad := ((explicit_datasets.getD []).filter (fun p => p ≠ [])).map
    (fun p => lowerL (stripBT p))
  (allowed_base,
   (if ap = [] then derived_projects else ap),
   (if ad = [] then derived_datasets else ad))

/-- `_ensure_tables_are_allowlisted`. -/
def ensure_tables_are_allowlisted (references : List RefId)
    (allowed_tables : List (List Char)) : Except GuardErr Unit :=
  let unauthorized := sortLex ((references.filterMap (fun r =>
    if allowed_tables.contains r.table then none else some r.table)).dedup)
  if unauthorized = [] then .ok ()
  else .error (.unauthorizedTables unauthorized)

/-- `_ensure_authorized_namespaces`: skipped entirely when both sets are
empty; a reference's non-empty project (dataset) outside a non-empty allowed
set marks its raw token invalid; invalid projects are reported before invalid
datasets. -/
def ensure_authorized_namespaces (references : List RefId)
    (allowed_projects allowed_datasets : List (List Char)) :
    Except GuardErr Unit :=
  if allowed_projects = [] ∧ allowed_datasets = [] then .ok ()
  else
    let invalid_projects := sortLex ((references.filterMap (fun r =>
      match r.project with
      | some p =>
        if p ≠ [] ∧ allowed_projects ≠ [] ∧ !(allowed_projects.contains p)
        then some r.token else none
      | none => none)).dedup)
    let invalid_datasets := sortLex ((references.filterMap (fun r =>
      match r.dataset with
      | some d =>
        if d ≠ [] ∧ allowed_datasets ≠ [] ∧ !(allowed_datasets.contains d)
        then some r.token else none
      | none => none)).dedup)
    if invalid_projects ≠ [] then
      .error (.unauthorizedProjects invalid_projects)
    else if invalid_datasets ≠ [] then
      .error (.unauthorizedDatasets invalid_datasets)
    else .ok ()

/-- `_validate_tables` (whyline revision). -/
def validate_tables (sql : List Char) (allowed_models : List (List Char))
    (allowed_projects allowed_datasets : Option (List (List Char))) :
    Except GuardErr Unit :=
  let sets := compile_allowed_sets allowed_models allowed_projects
    allowed_datasets
  let references := extract_referenced_identifiers sql
  match ensure_tables_are_allowlisted references sets.1 with
  | .error e => .error e
  | .ok _ => ensure_authorized_namespaces references sets.2.1 sets.2.2

/-- `GuardrailConfig` of `whyline/sql_guardrails.py`. -/
structure GuardrailConfig where
  allowed_models : List (List Char)
  engine : List Char
  partition_columns : List (List Char) := [toL "service_date_mst"]
  enforce_limit : Nat := 5000
  allowed_datasets : Option (List (List Char)) := none
  allowed_projects : Option (List (List Char)) := none

/-- `_quote_hyphenated_tables`: every table-pattern match whose token is not
already fully backtick-quoted and contains a hyphen has its token wrapped in
backticks.  (`match.group(0).replace(token, quoted, 1)` replaces exactly the
token: the token contains a hyphen but no whitespace, while the text before
it in `group(0)` is `FROM`/`JOIN` plus whitespace, which contains no hyphen,
so the first occurrence of the token in `group(0)` is the token itself.) -/
def quote_replacer (m : TM) : List Char :=
  let token := m.token
  if token.head? = some btick ∧ token.getLastD ' ' = btick then m.group0
  else if !(token.contains '-') then m.group0
  else m.clause ++ m.spaces ++ (btick :: token ++ [btick])

/-- `TABLE_PATTERN.sub(replacer, sql)` of `_quote_hyphenated_tables`. -/
def quote_hyphenated_tables (sql : List Char) : List Char :=
  tableSub quote_replacer sql

/-- `sanitize_sql` (whyline revision). -/
def sanitize_sql (sql : List Char) (config : GuardrailConfig) :
    Except GuardErr (List Char) :=
  match guards.normalize sql with
  | .error e => .error e
  | .ok parsed =>
    match guards.ensure_single_statement parsed with
    | .error e => .error e
    | .ok _ =>
      match guards.ensure_read_only parsed with
      | .error e => .error e
      | .ok _ =>
        match validate_tables parsed config.allowed_models
            config.allowed_projects config.allowed_datasets with
        | .error e => .error e
        | .ok _ =>
          if config.engine = toL "bigquery" then
            match guards.suggest_partition_filter
                (quote_hyphenated_tables
                  (guards.ensure_limit parsed config.enforce_limit))
                config.partition_columns with
            | .error e => .error e
            | .ok _ =>
              .ok (quote_hyphenated_tables
                (guards.ensure_limit parsed config.enforce_limit))
          else .ok (guards.ensure_limit parsed config.enforce_limit)

end whyline

namespace llm

/-- `ModelInfo` (dbt artifact metadata; only `name` is used here). -/
structure ModelInfo where
  name : List Char
  fq_name : List Char
  description : Option (List Char) := none
  deriving Repr, DecidableEq

/-- The replacer of `_qualify_bigquery_tables` (whyline revision), applied to
one table-pattern match.  `proj`/`ds` stand for
`settings.GCP_PROJECT_ID`/`settings.BQ_DATASET_MART`, passed as parameters. -/
def qualify_replacer (ctes : List (List Char))
    (models : List (List Char × ModelInfo)) (proj ds : List Char)
    (m : TM) : List Char :=
  let raw := stripBT m.token
  if ctes.contains (lowerL raw) then m.group0
  else if raw.contains '.' then m.group0
  else
    let table_name :=
      match List.lookup raw models with
      | some mi => mi.name
      | none => raw
    m.clause ++ [' '] ++
      (btick :: (proj ++ '.' :: ds ++ '.' :: table_name) ++ [btick]) ++
      m.aliasTxt

/-- `_qualify_bigquery_tables` (whyline revision): rewrite every table
pattern match via the replacer; the CTE names of the same query are computed
with the comma-supporting `CTE_PATTERN` imported from
`whyline.sql_guardrails`. -/
def qualify_bigquery_tables (proj ds : List Char)
    (models : List (List Char × ModelInfo)) (sql : List Char) : List Char :=
  tableSubA
    (qualify_replacer ((cteFindAll true sql).map (fun n => lowerL (stripBT n)))
      models proj ds) sql

/-- `adapt_sql_for_engine` (whyline revision): rewrite `DATE_SUB` intervals
for DuckDB; qualify bare tables for BigQuery when a non-empty models map is
supplied. -/
def adapt_sql_for_engine (proj ds : List Char) (sql engine : List Char)
    (models : List (List Char × ModelInfo)) : List Char :=
  let transformed := if engine = toL "duckdb" then dsSubst sql else sql
  if engine = toL "bigquery" ∧ models ≠ [] then
    qualify_bigquery_tables proj ds models transformed
  else transformed

end llm

/-- Boundary at the right end of a prefix: the last character (if any) is not
a word character.  Encodes the `\b` to the left of a match. -/
def lastNW (a : List Char) : Bool :=
  match a.getLast? with
  | none => true
  | some c => !wordChar c

/-- Boundary at the left end of a suffix: the first character (if any) is not
a word character.  Encodes the `\b` to the right of a match. -/
def headNW (b : List Char) : Bool :=
  match b.head? with
  | none => true
  | some c => !wordChar c

/-- The clause `_ensure_limit` appends when no `LIMIT` is present. -/
def limitClause (n : Nat) : List Char := toL "\nLIMIT " ++ natDigits n

/-!
## Character-level facts
-/

theorem char_eq_of_toNat_eq {a b : Char} (h : a.toNat = b.toNat) : a = b :=
  Char.ext (UInt32.toNat.inj h)

theorem char_eq_iff_toNat {a b : Char} : a = b ↔ a.toNat = b.toNat :=
  ⟨fun h => h ▸ rfl, char_eq_of_toNat_eq⟩

theorem toNat_ofNat_valid {n : Nat} (h : n < 55296) : (Char.ofNat n).toNat = n := by
  unfold Char.ofNat
  split
  · simp [Char.ofNatAux, Char.toNat, UInt32.toNat, UInt32.ofNat']
  · rename_i hv
    exact absurd (Or.inl (by omega)) hv

theorem pySpace_iff (c : Char) :
    pySpace c = true ↔ (c.toNat = 32 ∨ c.toNat = 9 ∨ c.toNat = 10 ∨
      c.toNat = 13 ∨ c.toNat = 11 ∨ c.toNat = 12) := by
  simp [pySpace, Bool.or_eq_true]
  tauto

theorem wordChar_iff (c : Char) :
    wordChar c = true ↔ ((65 ≤ c.toNat ∧ c.toNat ≤ 90) ∨
      (97 ≤ c.toNat ∧ c.toNat ≤ 122) ∨ (48 ≤ c.toNat ∧ c.toNat ≤ 57) ∨
      c.toNat = 95) := by
  simp [wordChar, Bool.or_eq_true, Bool.and_eq_true]
  tauto

theorem isDigitC_iff (c : Char) :
    isDigitC c = true ↔ (48 ≤ c.toNat ∧ c.toNat ≤ 57) := by
  simp [isDigitC, Bool.and_eq_true]

theorem pySpace_not_wordChar {c : Char} (h : pySpace c = true) :
    wordChar c = false := by
  rw [pySpace_iff] at h
  rw [← Bool.not_eq_true, wordChar_iff]
  omega

theorem wordChar_not_pySpace {c : Char} (h : wordChar c = true) :
    pySpace c = false := by
  rw [wordChar_iff] at h
  rw [← Bool.not_eq_true, pySpace_iff]
  omega

theorem isDigitC_wordChar {c : Char} (h : isDigitC c = true) :
    wordChar c = true := by
  rw [isDigitC_iff] at h
  rw [wordChar_iff]
  omega

theorem isDigitC_not_pySpace {c : Char} (h : isDigitC c = true) :
    pySpace c = false :=
  wordChar_not_pySpace (isDigitC_wordChar h)

theorem upC_toNat (c : Char) :
    (upC c).toNat =
      if 97 ≤ c.toNat ∧ c.toNat ≤ 122 then c.toNat - 32 else c.toNat := by
  unfold upC
  split
  · rename_i h
    simp only [Bool.and_eq_true, decide_eq_true_eq] at h
    rw [toNat_ofNat_valid (by omega), if_pos (by omega)]
  · rename_i h
    simp only [Bool.and_eq_true, decide_eq_true_eq, not_and, Nat.not_le] at h
    rw [if_neg (by omega)]

theorem pySpace_upC (c : Char) : pySpace (upC c) = pySpace c := by
  cases hs : pySpace c
  · rw [← Bool.not_eq_true, pySpace_iff, upC_toNat]
    rw [← Bool.not_eq_true, pySpace_iff] at hs
    split <;> omega
  · rw [pySpace_iff, upC_toNat]
    rw [pySpace_iff] at hs
    split <;> omega

theorem wordChar_upC (c : Char) : wordChar (upC c) = wordChar c := by
  cases hs : wordChar c
  · rw [← Bool.not_eq_true, wordChar_iff, upC_toNat]
    rw [← Bool.not_eq_true, wordChar_iff] at hs
    split <;> omega
  · rw [wordChar_iff, upC_toNat]
    rw [wordChar_iff] at hs
    split <;> omega

theorem semicolon_toNat : (';' : Char).toNat = 59 := rfl

theorem upC_semicolon_iff (c : Char) : upC c = ';' ↔ c = ';' := by
  rw [char_eq_iff_toNat, char_eq_iff_toNat, semicolon_toNat, upC_toNat]
  split <;> omega

theorem isDigitC_upC {c : Char} (h : isDigitC c = true) : upC c = c := by
  rw [isDigitC_iff] at h
  apply char_eq_of_toNat_eq
  rw [upC_toNat]
  split <;> omega

/-!
## List utilities
-/

theorem contains_iff {l : List Char} {a : Char} :
    l.contains a = true ↔ a ∈ l := List.elem_iff

theorem containsL_iff {l : List (List Char)} {a : List Char} :
    l.contains a = true ↔ a ∈ l := List.elem_iff

theorem mem_of_getLast?_eq {l : List Char} {a : Char}
    (h : l.getLast? = some a) : a ∈ l := by
  induction l with
  | nil => simp at h
  | cons b t ih =>
    rw [List.getLast?_cons] at h
    cases ht : t.getLast? with
    | none =>
      rw [ht] at h
      simp at h
      subst h
      exact List.mem_cons_self _ _
    | some x =>
      rw [ht] at h
      simp at h
      subst h
      exact List.mem_cons_of_mem _ (ih ht)

theorem mem_of_head?_eq {l : List Char} {a : Char}
    (h : l.head? = some a) : a ∈ l := by
  cases l with
  | nil => simp at h
  | cons b t =>
    simp at h
    subst h
    exact List.mem_cons_self _ _

theorem mem_insLex {a x : List Char} {l : List (List Char)} :
    x ∈ insLex a l ↔ x = a ∨ x ∈ l := by
  induction l with
  | nil => simp [insLex]
  | cons b t ih =>
    rw [insLex]
    split
    · simp
    · simp only [List.mem_cons, ih]
      tauto

theorem mem_sortLex {x : List Char} {l : List (List Char)} :
    x ∈ sortLex l ↔ x ∈ l := by
  induction l with
  | nil => simp [sortLex]
  | cons b t ih =>
    rw [sortLex, mem_insLex, ih]
    simp

theorem sortLex_eq_nil {l : List (List Char)} :
    sortLex l = [] ↔ l = [] := by
  constructor
  · intro h
    rw [List.eq_nil_iff_forall_not_mem]
    intro a ha
    have := mem_sortLex.mpr ha
    rw [h] at this
    simp at this
  · intro h
    subst h
    rfl

theorem mem_flatten_intersperse {x : List Char} {sep : List Char}
    {ts : List (List Char)} (h : x ∈ ts) :
    ∃ a b, (ts.intersperse sep).flatten = a ++ x ++ b := by
  induction ts with
  | nil => simp at h
  | cons t rest ih =>
    cases rest with
    | nil =>
      simp only [List.mem_singleton] at h
      subst h
      exact ⟨[], [], by simp [List.intersperse]⟩
    | cons t2 rest2 =>
      have hflat : ((t :: t2 :: rest2).intersperse sep).flatten =
          t ++ sep ++ ((t2 :: rest2).intersperse sep).flatten := by
        simp [List.intersperse_cons_cons, List.flatten_cons]
      rcases List.mem_cons.mp h with rfl | h2
      · exact ⟨[], sep ++ ((t2 :: rest2).intersperse sep).flatten,
          by rw [hflat]; simp⟩
      · obtain ⟨a, b, hab⟩ := ih h2
        exact ⟨t ++ sep ++ a, b, by rw [hflat, hab]; simp⟩

/-!
## `natDigits` facts
-/

theorem natDigitsF_irrel : ∀ {f1 f2 n : Nat}, n < f1 → n < f2 →
    natDigitsF f1 n = natDigitsF f2 n := by
  intro f1
  induction f1 with
  | zero => intro f2 n h1 h2; omega
  | succ f ih =>
    intro f2 n h1 h2
    cases f2 with
    | zero => omega
    | succ g =>
      simp only [natDigitsF]
      split
      · rfl
      · rename_i h10
        have hlt := Nat.div_lt_self (show 0 < n by omega) (show 1 < 10 by omega)
        rw [@ih g (n / 10) (by omega) (by omega)]

theorem natDigits_unfold (n : Nat) :
    natDigits n = if n < 10 then [Char.ofNat (48 + n)]
      else natDigits (n / 10) ++ [Char.ofNat (48 + n % 10)] := by
  rw [natDigits]
  simp only [natDigitsF]
  split
  · rfl
  · rename_i h
    congr 1
    rw [natDigits]
    have hlt := Nat.div_lt_self (show 0 < n by omega) (show 1 < 10 by omega)
    exact @natDigitsF_irrel n (n / 10 + 1) (n / 10) (by omega) (by omega)

theorem natDigits_ne_nil (n : Nat) : natDigits n ≠ [] := by
  rw [natDigits_unfold]
  split <;> simp

theorem natDigits_all_digit (n : Nat) :
    ∀ c ∈ natDigits n, isDigitC c = true := by
  induction n using Nat.strong_induction_on with
  | _ n ih =>
    rw [natDigits_unfold]
    split
    · rename_i h
      intro c hc
      simp only [List.mem_singleton] at hc
      subst hc
      rw [isDigitC_iff, toNat_ofNat_valid (by omega)]
      omega
    · rename_i h
      intro c hc
      simp only [List.mem_append, List.mem_singleton] at hc
      rcases hc with hc | hc
      · exact ih (n / 10) (Nat.div_lt_self (by omega) (by omega)) c hc
      · subst hc
        have hm : n % 10 < 10 := Nat.mod_lt n (by omega)
        rw [isDigitC_iff, toNat_ofNat_valid (by omega)]
        omega

theorem natDigits_head_digit {n : Nat} {c : Char}
    (h : (natDigits n).head? = some c) : isDigitC c = true :=
  natDigits_all_digit n c (mem_of_head?_eq h)

theorem natDigits_getLast_digit {n : Nat} {c : Char}
    (h : (natDigits n).getLast? = some c) : isDigitC c = true :=
  natDigits_all_digit n c (mem_of_getLast?_eq h)

/-!
## Scanner specifications

Each `re.search`-style scanner is characterized by an existential
decomposition of the text, which is the form the transfer lemmas below use.
-/

theorem isPrefixL_iff {w s : List Char} :
    isPrefixL w s = true ↔ ∃ t, s = w ++ t := by
  induction w generalizing s with
  | nil => simp [isPrefixL]
  | cons a w ih =>
    cases s with
    | nil => simp [isPrefixL]
    | cons b t =>
      simp only [isPrefixL, Bool.and_eq_true, decide_eq_true_eq, ih,
        List.cons_append, List.cons.injEq]
      constructor
      · rintro ⟨rfl, u, rfl⟩
        exact ⟨u, rfl, rfl⟩
      · rintro ⟨u, rfl, rfl⟩
        exact ⟨rfl, u, rfl⟩

theorem scanNoB_iff {f : List Char → Bool} {s : List Char} :
    scanNoB f s = true ↔ ∃ a b, s = a ++ b ∧ f b = true := by
  induction s with
  | nil =>
    simp only [scanNoB]
    constructor
    · intro h
      exact ⟨[], [], rfl, h⟩
    · rintro ⟨a, b, hab, hb⟩
      obtain ⟨rfl, rfl⟩ := List.append_eq_nil.mp hab.symm
      exact hb
  | cons c rest ih =>
    simp only [scanNoB, Bool.or_eq_true, ih]
    constructor
    · rintro (h | ⟨a, b, rfl, hb⟩)
      · exact ⟨[], c :: rest, rfl, h⟩
      · exact ⟨c :: a, b, rfl, hb⟩
    · rintro ⟨a, b, hab, hb⟩
      cases a with
      | nil =>
        simp only [List.nil_append] at hab
        subst hab
        exact Or.inl hb
      | cons c' a' =>
        simp only [List.cons_append, List.cons.injEq] at hab
        obtain ⟨rfl, rfl⟩ := hab
        exact Or.inr ⟨a', b, rfl, hb⟩

theorem infixB_iff {w s : List Char} :
    infixB w s = true ↔ ∃ a b, s = a ++ w ++ b := by
  simp only [infixB, scanNoB_iff, isPrefixL_iff]
  constructor
  · rintro ⟨a, b, rfl, t, rfl⟩
    exact ⟨a, t, by simp⟩
  · rintro ⟨a, b, h⟩
    exact ⟨a, w ++ b, by simp [h], b, rfl⟩

theorem scanB_iff {f : List Char → Bool} (hf : f [] = false)
    {s : List Char} {pnw : Bool} :
    scanB f s pnw = true ↔
      ∃ a b, s = a ++ b ∧ (a = [] → pnw = true) ∧
        (∀ c, a.getLast? = some c → wordChar c = false) ∧ f b = true := by
  induction s generalizing pnw with
  | nil =>
    simp only [scanB]
    constructor
    · intro h
      exact absurd h (by simp)
    · rintro ⟨a, b, hab, h1, h2, h3⟩
      obtain ⟨rfl, rfl⟩ := List.append_eq_nil.mp hab.symm
      rw [hf] at h3
      exact absurd h3 (by simp)
  | cons c rest ih =>
    simp only [scanB, Bool.or_eq_true, Bool.and_eq_true]
    constructor
    · rintro (⟨hp, hff⟩ | h)
      · exact ⟨[], c :: rest, rfl, fun _ => hp, by simp, hff⟩
      · obtain ⟨a, b, hab, h1, h2, h3⟩ := ih.mp h
        refine ⟨c :: a, b, by rw [List.cons_append, hab], by simp, ?_, h3⟩
        intro d hd
        rw [List.getLast?_cons] at hd
        cases ha : a.getLast? with
        | none =>
          rw [ha] at hd
          simp only [Option.getD_none, Option.some.injEq] at hd
          subst hd
          have ha' : a = [] := List.getLast?_eq_none_iff.mp ha
          have := h1 ha'
          simpa using this
        | some x =>
          rw [ha] at hd
          simp only [Option.getD_some, Option.some.injEq] at hd
          subst hd
          exact h2 x ha
    · rintro ⟨a, b, hab, h1, h2, h3⟩
      cases a with
      | nil =>
        simp only [List.nil_append] at hab
        subst hab
        exact Or.inl ⟨h1 rfl, h3⟩
      | cons c' a' =>
        simp only [List.cons_append, List.cons.injEq] at hab
        obtain ⟨rfl, rfl⟩ := hab
        refine Or.inr (ih.mpr ⟨a', b, rfl, ?_, ?_, h3⟩)
        · intro ha'
          subst ha'
          have := h2 c (by simp)
          simp [this]
        · intro d hd
          apply h2
          rw [List.getLast?_cons, hd]
          simp

theorem boundedAt_iff {kw b0 : List Char} :
    boundedAt kw b0 = true ↔ ∃ b, b0 = kw ++ b ∧ headNW b = true := by
  simp only [boundedAt, Bool.and_eq_true, isPrefixL_iff]
  constructor
  · rintro ⟨⟨b, rfl⟩, h2⟩
    refine ⟨b, rfl, ?_⟩
    rw [List.drop_left] at h2
    cases b with
    | nil => simp [headNW]
    | cons d t => simpa [headNW] using h2
  · rintro ⟨b, rfl, hb⟩
    refine ⟨⟨b, rfl⟩, ?_⟩
    rw [List.drop_left]
    cases b with
    | nil => simp
    | cons d t => simpa [headNW] using hb

theorem wordOccurs_iff {kw s : List Char} (hk : kw ≠ []) :
    wordOccurs kw s = true ↔
      ∃ a b, s = a ++ kw ++ b ∧ lastNW a = true ∧ headNW b = true := by
  have hf : boundedAt kw [] = false := by
    cases kw with
    | nil => exact absurd rfl hk
    | cons c t => simp [boundedAt, isPrefixL]
  rw [wordOccurs, scanB_iff hf]
  constructor
  · rintro ⟨a, b0, rfl, h1, h2, h3⟩
    obtain ⟨b, rfl, hb⟩ := boundedAt_iff.mp h3
    refine ⟨a, b, by simp, ?_, hb⟩
    unfold lastNW
    cases ha : a.getLast? with
    | none => rfl
    | some c => simp [h2 c ha]
  · rintro ⟨a, b, rfl, ha, hb⟩
    refine ⟨a, kw ++ b, by simp, fun _ => rfl, ?_, boundedAt_iff.mpr ⟨b, rfl, hb⟩⟩
    intro c hc
    unfold lastNW at ha
    rw [hc] at ha
    simpa using ha

theorem limitHead_concat {d : List Char} {c : Char} (hh : d.head? = some c)
    (hd : isDigitC c = true) : limitHead (toL "LIMIT " ++ d) = true := by
  cases d with
  | nil => simp at hh
  | cons c0 t =>
    simp only [List.head?_cons, Option.some.injEq] at hh
    rw [← hh] at hd
    have hsp : pySpace c0 = false := isDigitC_not_pySpace hd
    have h1 : matchCI (toL "LIMIT") (toL "LIMIT " ++ c0 :: t) = true := by rfl
    simp only [limitHead, Bool.and_eq_true]
    refine ⟨h1, ?_⟩
    have hdrop : List.drop 5 (toL "LIMIT " ++ c0 :: t) = ' ' :: c0 :: t := rfl
    rw [hdrop, List.takeWhile_cons_of_pos (by decide),
      List.takeWhile_cons_of_neg (by simp [hsp]),
      List.dropWhile_cons_of_pos (by decide),
      List.dropWhile_cons_of_neg (by simp [hsp])]
    simp [hd]

theorem limitSearch_append_clause (a : List Char) (n : Nat) :
    limitSearch (a ++ limitClause n) = true := by
  have hf : limitHead [] = false := by decide
  rw [limitSearch, scanB_iff hf]
  refine ⟨a ++ ['\n'], toL "LIMIT " ++ natDigits n, ?_, ?_, ?_, ?_⟩
  · show a ++ limitClause n = (a ++ ['\n']) ++ (toL "LIMIT " ++ natDigits n)
    simp [limitClause, toL]
  · intro h
    exact absurd h (by simp)
  · intro c hc
    rw [List.getLast?_concat] at hc
    simp only [Option.some.injEq] at hc
    subst hc
    decide
  · obtain ⟨c, t, hnd⟩ : ∃ c t, natDigits n = c :: t := by
      cases hnd : natDigits n with
      | nil => exact absurd hnd (natDigits_ne_nil n)
      | cons c t => exact ⟨c, t, rfl⟩
    rw [hnd]
    exact limitHead_concat (by rfl) (natDigits_head_digit (by rw [hnd]; rfl))

theorem ensure_limit_no_limit {sql : List Char} {n : Nat}
    (h : limitSearch sql = false) :
    guards.ensure_limit sql n = sql ++ toL "\nLIMIT " ++ natDigits n := by
  unfold guards.ensure_limit
  rw [if_neg (by simp [h])]

theorem ensure_limit_has_limit {sql : List Char} {n : Nat}
    (h : limitSearch sql = true) : guards.ensure_limit sql n = sql := by
  unfold guards.ensure_limit
  rw [if_pos h]

theorem ensure_limit_idem (sql : List Char) (n : Nat) :
    guards.ensure_limit (guards.ensure_limit sql n) n =
      guards.ensure_limit sql n := by
  cases h : limitSearch sql with
  | true => rw [ensure_limit_has_limit h, ensure_limit_has_limit h]
  | false =>
    rw [ensure_limit_no_limit h]
    have hcl := limitSearch_append_clause sql n
    rw [limitClause, ← List.append_assoc] at hcl
    exact ensure_limit_has_limit hcl

/-!
## Facts about `pystrip`, `pylstrip`, `rstripP`
-/

theorem rstripP_nil (p : Char → Bool) : rstripP p [] = [] := rfl

theorem rstripP_cons_eq_nil {p : Char → Bool} {c : Char} {rest : List Char}
    (h1 : rstripP p rest = []) (h2 : p c = true) :
    rstripP p (c :: rest) = [] := by
  rw [rstripP, h1, h2]

theorem rstripP_cons_of_ne_nil {p : Char → Bool} {c : Char} {rest : List Char}
    (h1 : rstripP p rest ≠ []) :
    rstripP p (c :: rest) = c :: rstripP p rest := by
  rw [rstripP]
  cases hr : rstripP p rest with
  | nil => exact absurd hr h1
  | cons d t => cases p c <;> rfl

theorem rstripP_cons_of_not {p : Char → Bool} {c : Char} {rest : List Char}
    (h2 : p c = false) :
    rstripP p (c :: rest) = c :: rstripP p rest := by
  rw [rstripP, h2]
  cases rstripP p rest <;> rfl

theorem rstripP_append (p : Char → Bool) (x y : List Char) :
    rstripP p (x ++ y) =
      if rstripP p y = [] then rstripP p x else x ++ rstripP p y := by
  induction x with
  | nil =>
    simp only [List.nil_append, rstripP_nil]
    split <;> simp_all
  | cons c x' ih =>
    rw [List.cons_append]
    by_cases hy : rstripP p y = []
    · rw [if_pos hy]
      rw [if_pos hy] at ih
      by_cases hx : rstripP p x' = []
      · by_cases hc : p c = true
        · rw [rstripP_cons_eq_nil (ih.trans hx) hc, rstripP_cons_eq_nil hx hc]
        · rw [rstripP_cons_of_not (by simpa using hc),
            rstripP_cons_of_not (by simpa using hc), ih]
      · rw [rstripP_cons_of_ne_nil (by rw [ih]; exact hx),
          rstripP_cons_of_ne_nil hx, ih]
    · rw [if_neg hy]
      rw [if_neg hy] at ih
      have hne : rstripP p (x' ++ y) ≠ [] := by
        rw [ih]
        simp [hy]
      rw [rstripP_cons_of_ne_nil hne, ih, List.cons_append]

theorem rstripP_eq_self {p : Char → Bool} {l : List Char}
    (h : ∀ c, l.getLast? = some c → p c = false) : rstripP p l = l := by
  induction l with
  | nil => rfl
  | cons c rest ih =>
    cases rest with
    | nil =>
      have := h c (by simp)
      rw [rstripP_cons_of_not this, rstripP_nil]
    | cons d t =>
      have hr : rstripP p (d :: t) = d :: t := by
        apply ih
        intro e he
        apply h
        rw [List.getLast?_cons, he]
        simp
      rw [rstripP_cons_of_ne_nil (by simp [hr]), hr]

theorem rstripP_decomp (p : Char → Bool) (l : List Char) :
    ∃ y, l = rstripP p l ++ y ∧ ∀ c ∈ y, p c = true := by
  induction l with
  | nil => exact ⟨[], rfl, by simp⟩
  | cons c rest ih =>
    obtain ⟨y, hy, hall⟩ := ih
    by_cases hc : rstripP p rest = [] ∧ p c = true
    · refine ⟨c :: y, ?_, ?_⟩
      · rw [rstripP_cons_eq_nil hc.1 hc.2, List.nil_append]
        rw [hc.1, List.nil_append] at hy
        rw [← hy]
      · intro d hd
        rcases List.mem_cons.mp hd with rfl | hd2
        · exact hc.2
        · exact hall d hd2
    · refine ⟨y, ?_, hall⟩
      rcases Decidable.not_and_iff_or_not.mp hc with h1 | h2
      · rw [rstripP_cons_of_ne_nil h1, List.cons_append, ← hy]
      · rw [rstripP_cons_of_not (by simpa using h2), List.cons_append, ← hy]

theorem rstripP_getLast_not {p : Char → Bool} {l : List Char} {c : Char}
    (h : (rstripP p l).getLast? = some c) : p c = false := by
  induction l with
  | nil => simp [rstripP_nil] at h
  | cons d rest ih =>
    by_cases hc : rstripP p rest = [] ∧ p d = true
    · rw [rstripP_cons_eq_nil hc.1 hc.2] at h
      simp at h
    · rcases Decidable.not_and_iff_or_not.mp hc with h1 | h2
      · rw [rstripP_cons_of_ne_nil h1, List.getLast?_cons] at h
        cases hr : (rstripP p rest).getLast? with
        | none => exact absurd (List.getLast?_eq_none_iff.mp hr) h1
        | some x =>
          rw [hr] at h
          simp only [Option.getD_some, Option.some.injEq] at h
          subst h
          exact ih hr
      · have h2' : p d = false := by simpa using h2
        rw [rstripP_cons_of_not h2', List.getLast?_cons] at h
        cases hr : (rstripP p rest).getLast? with
        | none =>
          rw [hr] at h
          simp only [Option.getD_none, Option.some.injEq] at h
          subst h
          exact h2'
        | some x =>
          rw [hr] at h
          simp only [Option.getD_some, Option.some.injEq] at h
          subst h
          exact ih hr

theorem dropWhile_decomp (p : Char → Bool) (l : List Char) :
    ∃ x, l = x ++ l.dropWhile p ∧ ∀ c ∈ x, p c = true :=
  ⟨l.takeWhile p, (List.takeWhile_append_dropWhile p l).symm,
    fun _ hc => List.mem_takeWhile_imp hc⟩

theorem pystrip_decomp (l : List Char) :
    ∃ x y, l = x ++ pystrip l ++ y ∧ (∀ c ∈ x, pySpace c = true) ∧
      ∀ c ∈ y, pySpace c = true := by
  obtain ⟨x, hx, hallx⟩ := dropWhile_decomp pySpace l
  obtain ⟨y, hy, hally⟩ := rstripP_decomp pySpace (l.dropWhile pySpace)
  refine ⟨x, y, ?_, hallx, hally⟩
  rw [pystrip, List.append_assoc, ← hy, ← hx]

theorem pystrip_head_not {l : List Char} {c : Char}
    (h : (pystrip l).head? = some c) : pySpace c = false := by
  rw [pystrip] at h
  obtain ⟨y, hy, _⟩ := rstripP_decomp pySpace (l.dropWhile pySpace)
  have hh : (l.dropWhile pySpace).head? = some c := by
    rw [hy, List.head?_append, h]
    rfl
  have := List.head?_dropWhile_not pySpace l
  rw [hh] at this
  exact this

theorem pystrip_getLast_not {l : List Char} {c : Char}
    (h : (pystrip l).getLast? = some c) : pySpace c = false :=
  rstripP_getLast_not h

theorem pylstrip_of_head_not {l : List Char}
    (h : ∀ c, l.head? = some c → pySpace c = false) : pylstrip l = l := by
  cases l with
  | nil => rfl
  | cons c rest =>
    rw [pylstrip, List.dropWhile_cons_of_neg (by simp [h c rfl])]

theorem pystrip_eq_self {l : List Char}
    (hh : ∀ c, l.head? = some c → pySpace c = false)
    (hl : ∀ c, l.getLast? = some c → pySpace c = false) : pystrip l = l := by
  have h1 : l.dropWhile pySpace = l := by
    have := pylstrip_of_head_not hh
    rwa [pylstrip] at this
  rw [pystrip, h1]
  exact rstripP_eq_self hl

theorem pystrip_idem (l : List Char) : pystrip (pystrip l) = pystrip l :=
  pystrip_eq_self (fun _ h => pystrip_head_not h)
    (fun _ h => pystrip_getLast_not h)

/-!
## Upper-casing commutes with the normalization steps
-/

theorem upperL_append (a b : List Char) :
    upperL (a ++ b) = upperL a ++ upperL b := List.map_append upC a b

theorem upperL_eq_nil {l : List Char} : upperL l = [] ↔ l = [] := by
  simp [upperL]

theorem upperL_dropWhile (l : List Char) :
    upperL (l.dropWhile pySpace) = (upperL l).dropWhile pySpace := by
  have hp : (pySpace ∘ upC) = pySpace := funext pySpace_upC
  rw [upperL, upperL, List.dropWhile_map, hp]

theorem upperL_rstripP (l : List Char) :
    upperL (rstripP pySpace l) = rstripP pySpace (upperL l) := by
  induction l with
  | nil => rfl
  | cons c rest ih =>
    show upperL (rstripP pySpace (c :: rest)) =
      rstripP pySpace (upC c :: upperL rest)
    by_cases h1 : rstripP pySpace rest = []
    · have h1' : rstripP pySpace (upperL rest) = [] := by
        rw [← ih, h1]
        rfl
      by_cases hc : pySpace c = true
      · rw [rstripP_cons_eq_nil h1 hc,
          rstripP_cons_eq_nil h1' (by rw [pySpace_upC]; exact hc)]
        rfl
      · rw [rstripP_cons_of_not (by simpa using hc),
          rstripP_cons_of_not (by rw [pySpace_upC]; simpa using hc)]
        show upC c :: upperL (rstripP pySpace rest) = _
        rw [ih]
    · have h1' : rstripP pySpace (upperL rest) ≠ [] := by
        rw [← ih]
        simpa [upperL_eq_nil] using h1
      rw [rstripP_cons_of_ne_nil h1, rstripP_cons_of_ne_nil h1']
      show upC c :: upperL (rstripP pySpace rest) = _
      rw [ih]

theorem upperL_pystrip (l : List Char) :
    upperL (pystrip l) = pystrip (upperL l) := by
  rw [pystrip, pystrip, upperL_rstripP, upperL_dropWhile]

theorem upperL_dropLast (l : List Char) :
    upperL l.dropLast = (upperL l).dropLast := List.map_dropLast upC l

/-!
## Occurrence transfer through normalization
-/

theorem getLast?_append_right {a b : List Char} (hb : b ≠ []) :
    (a ++ b).getLast? = b.getLast? := by
  rw [List.getLast?_append]
  cases hbl : b.getLast? with
  | none => exact absurd (List.getLast?_eq_none_iff.mp hbl) hb
  | some x => rfl

theorem head?_append_left {a b : List Char} (ha : a ≠ []) :
    (a ++ b).head? = a.head? := by
  rw [List.head?_append]
  cases hal : a.head? with
  | none => exact absurd (List.head?_eq_none_iff.mp hal) ha
  | some x => rfl

theorem head?_dropLast {l : List Char} {c : Char}
    (h : l.dropLast.head? = some c) : l.head? = some c := by
  cases l with
  | nil => simp at h
  | cons d t =>
    cases t with
    | nil => simp at h
    | cons e u =>
      simp only [List.dropLast, List.head?_cons, Option.some.injEq] at h ⊢
      exact h

theorem occT_dropWhile {kw s : List Char} (hk : kw ≠ [])
    (hh : ∀ c, kw.head? = some c → pySpace c = false)
    (h : ∃ a b, s = a ++ kw ++ b ∧ lastNW a = true ∧ headNW b = true) :
    ∃ a b, s.dropWhile pySpace = a ++ kw ++ b ∧ lastNW a = true ∧
      headNW b = true := by
  obtain ⟨a, b, rfl, ha, hb⟩ := h
  have hkwb : (kw ++ b).dropWhile pySpace = kw ++ b := by
    cases kw with
    | nil => exact absurd rfl hk
    | cons k0 t =>
      rw [List.cons_append, List.dropWhile_cons_of_neg (by simp [hh k0 rfl])]
  by_cases hemp : a.dropWhile pySpace = []
  · refine ⟨[], b, ?_, rfl, hb⟩
    rw [List.append_assoc, List.dropWhile_append, if_pos (by simp [hemp]),
      hkwb, List.nil_append]
  · refine ⟨a.dropWhile pySpace, b, ?_, ?_, hb⟩
    · rw [List.append_assoc, List.dropWhile_append,
        if_neg (by simp [List.isEmpty_iff, hemp]), List.append_assoc]
    · obtain ⟨x, hx, _⟩ := dropWhile_decomp pySpace a
      unfold lastNW
      cases hg : (a.dropWhile pySpace).getLast? with
      | none => rfl
      | some d =>
        have : a.getLast? = some d := by
          rw [hx, getLast?_append_right hemp, hg]
        unfold lastNW at ha
        rw [this] at ha
        exact ha

theorem occT_rstripP {kw s : List Char} (hk : kw ≠ [])
    (hl : ∀ c, kw.getLast? = some c → pySpace c = false)
    (h : ∃ a b, s = a ++ kw ++ b ∧ lastNW a = true ∧ headNW b = true) :
    ∃ a b, rstripP pySpace s = a ++ kw ++ b ∧ lastNW a = true ∧
      headNW b = true := by
  obtain ⟨a, b, rfl, ha, hb⟩ := h
  have hkw : rstripP pySpace kw = kw := rstripP_eq_self hl
  by_cases hbnil : rstripP pySpace b = []
  · refine ⟨a, [], ?_, ha, rfl⟩
    rw [List.append_assoc, rstripP_append, rstripP_append, if_pos hbnil, hkw,
      if_neg hk, List.append_nil]
  · refine ⟨a, rstripP pySpace b, ?_, ha, ?_⟩
    · have hne : kw ++ rstripP pySpace b ≠ [] := by
        cases kw with
        | nil => exact absurd rfl hk
        | cons k0 t => simp
      rw [List.append_assoc, rstripP_append, rstripP_append, if_neg hbnil]
      rw [if_neg hne]
      rw [List.append_assoc]
    · obtain ⟨y, hy, _⟩ := rstripP_decomp pySpace b
      unfold headNW
      cases hg : (rstripP pySpace b).head? with
      | none => rfl
      | some d =>
        have : b.head? = some d := by
          rw [hy, head?_append_left hbnil, hg]
        unfold headNW at hb
        rw [this] at hb
        exact hb

theorem occT_dropLast_semi {kw s : List Char} (hk : kw ≠ [])
    (hw : ∀ c ∈ kw, wordChar c = true) (hsemi : s.getLast? = some ';')
    (h : ∃ a b, s = a ++ kw ++ b ∧ lastNW a = true ∧ headNW b = true) :
    ∃ a b, s.dropLast = a ++ kw ++ b ∧ lastNW a = true ∧ headNW b = true := by
  obtain ⟨a, b, rfl, ha, hb⟩ := h
  have hbne : b ≠ [] := by
    intro hbnil
    subst hbnil
    rw [List.append_nil, getLast?_append_right hk] at hsemi
    have : (';' : Char) ∈ kw := mem_of_getLast?_eq hsemi
    have := hw _ this
    simp [wordChar_iff, semicolon_toNat] at this
  refine ⟨a, b.dropLast, ?_, ha, ?_⟩
  · rw [List.dropLast_append_of_ne_nil _ hbne, List.append_assoc]
  · unfold headNW
    cases hg : b.dropLast.head? with
    | none => rfl
    | some d =>
      have := head?_dropLast hg
      unfold headNW at hb
      rw [this] at hb
      exact hb

theorem normalize_ok_cases {sql parsed : List Char}
    (h : guards.normalize sql = .ok parsed) :
    pystrip sql ≠ [] ∧
      (((pystrip sql).getLastD ' ' = ';' ∧
          parsed = pystrip (pystrip sql).dropLast) ∨
        (¬(pystrip sql).getLastD ' ' = ';' ∧ parsed = pystrip sql)) := by
  unfold guards.normalize at h
  by_cases h1 : pystrip sql = []
  · rw [if_pos h1] at h
    exact absurd h (by simp)
  · rw [if_neg h1] at h
    by_cases h2 : (pystrip sql).getLastD ' ' = ';'
    · rw [if_pos h2] at h
      simp only [Except.ok.injEq] at h
      exact ⟨h1, Or.inl ⟨h2, h.symm⟩⟩
    · rw [if_neg h2] at h
      simp only [Except.ok.injEq] at h
      exact ⟨h1, Or.inr ⟨h2, h.symm⟩⟩

theorem normalize_ok_image {sql parsed : List Char}
    (h : guards.normalize sql = .ok parsed) : ∃ x, parsed = pystrip x := by
  obtain ⟨-, hc | hc⟩ := normalize_ok_cases h
  · exact ⟨_, hc.2⟩
  · exact ⟨_, hc.2⟩

theorem normalize_ok_pystrip {sql parsed : List Char}
    (h : guards.normalize sql = .ok parsed) : pystrip parsed = parsed := by
  obtain ⟨x, rfl⟩ := normalize_ok_image h
  exact pystrip_idem x

theorem normalize_ok_pylstrip {sql parsed : List Char}
    (h : guards.normalize sql = .ok parsed) : pylstrip parsed = parsed := by
  obtain ⟨x, rfl⟩ := normalize_ok_image h
  exact pylstrip_of_head_not (fun _ hc => pystrip_head_not hc)

theorem normalize_sub {sql parsed : List Char}
    (h : guards.normalize sql = .ok parsed) :
    ∃ x y, sql = x ++ parsed ++ y := by
  obtain ⟨hne, hc | hc⟩ := normalize_ok_cases h
  · obtain ⟨hsemi, hp⟩ := hc
    obtain ⟨x1, y1, hxy1, -, -⟩ := pystrip_decomp sql
    obtain ⟨x2, y2, hxy2, -, -⟩ := pystrip_decomp (pystrip sql).dropLast
    obtain ⟨g, hg⟩ : ∃ g : Char, pystrip sql = (pystrip sql).dropLast ++ [g] :=
      ⟨(pystrip sql).getLast hne, (List.dropLast_append_getLast hne).symm⟩
    refine ⟨x1 ++ x2, y2 ++ [g] ++ y1, ?_⟩
    calc sql = x1 ++ pystrip sql ++ y1 := hxy1
      _ = x1 ++ ((pystrip sql).dropLast ++ [g]) ++ y1 := by rw [← hg]
      _ = x1 ++ ((x2 ++ pystrip (pystrip sql).dropLast ++ y2) ++ [g]) ++ y1 := by
          rw [← hxy2]
      _ = x1 ++ x2 ++ pystrip (pystrip sql).dropLast ++ (y2 ++ [g] ++ y1) := by
          simp [List.append_assoc]
      _ = x1 ++ x2 ++ parsed ++ (y2 ++ [g] ++ y1) := by rw [← hp]
  · obtain ⟨x, y, hxy, -, -⟩ := pystrip_decomp sql
    exact ⟨x, y, by rw [hxy, hc.2]⟩

theorem getLastD_semi_getLast? {l : List Char} (hne : l ≠ [])
    (h : l.getLastD ' ' = ';') : l.getLast? = some ';' := by
  cases hg : l.getLast? with
  | none => exact absurd (List.getLast?_eq_none_iff.mp hg) hne
  | some c =>
    have : l.getLastD ' ' = c := by
      rw [List.getLastD_eq_getLast?, hg]
      rfl
    rw [h] at this
    rw [← this]

theorem upperL_getLast?_semi {l : List Char} (h : l.getLast? = some ';') :
    (upperL l).getLast? = some ';' := by
  rw [upperL, List.getLast?_map, h]
  rfl

theorem occT_normalize {kw sql parsed : List Char} (hk : kw ≠ [])
    (hw : ∀ c ∈ kw, wordChar c = true)
    (hnorm : guards.normalize sql = .ok parsed)
    (h : ∃ a b, upperL sql = a ++ kw ++ b ∧ lastNW a = true ∧
      headNW b = true) :
    ∃ a b, upperL parsed = a ++ kw ++ b ∧ lastNW a = true ∧
      headNW b = true := by
  have hh : ∀ c, kw.head? = some c → pySpace c = false :=
    fun c hc => wordChar_not_pySpace (hw c (mem_of_head?_eq hc))
  have hl : ∀ c, kw.getLast? = some c → pySpace c = false :=
    fun c hc => wordChar_not_pySpace (hw c (mem_of_getLast?_eq hc))
  have step1 : ∃ a b, upperL (pystrip sql) = a ++ kw ++ b ∧
      lastNW a = true ∧ headNW b = true := by
    rw [upperL_pystrip, pystrip]
    exact occT_rstripP hk hl (occT_dropWhile hk hh h)
  obtain ⟨hne, hc | hc⟩ := normalize_ok_cases hnorm
  · obtain ⟨hsemi, hp⟩ := hc
    have hsemiU : (upperL (pystrip sql)).getLast? = some ';' :=
      upperL_getLast?_semi (getLastD_semi_getLast? hne hsemi)
    have step2 := occT_dropLast_semi hk hw hsemiU step1
    have hEq : upperL parsed = pystrip ((upperL (pystrip sql)).dropLast) := by
      rw [hp, upperL_pystrip, upperL_dropLast]
    have step3 : ∃ a b, pystrip ((upperL (pystrip sql)).dropLast) =
        a ++ kw ++ b ∧ lastNW a = true ∧ headNW b = true := by
      rw [pystrip]
      exact occT_rstripP hk hl (occT_dropWhile hk hh step2)
    rw [hEq]
    exact step3
  · rw [hc.2, upperL_pystrip]
    rw [upperL_pystrip] at step1
    exact step1

theorem infT_dropWhile {w s : List Char} (hwne : w ≠ [])
    (hh : ∀ c, w.head? = some c → pySpace c = false)
    (h : ∃ a b, s = a ++ w ++ b) :
    ∃ a b, s.dropWhile pySpace = a ++ w ++ b := by
  obtain ⟨a, b, rfl⟩ := h
  have hwb : (w ++ b).dropWhile pySpace = w ++ b := by
    cases w with
    | nil => exact absurd rfl hwne
    | cons w0 t =>
      rw [List.cons_append, List.dropWhile_cons_of_neg (by simp [hh w0 rfl])]
  by_cases hemp : a.dropWhile pySpace = []
  · refine ⟨[], b, ?_⟩
    rw [List.append_assoc, List.dropWhile_append, if_pos (by simp [hemp]),
      hwb, List.nil_append]
  · refine ⟨a.dropWhile pySpace, b, ?_⟩
    rw [List.append_assoc, List.dropWhile_append,
      if_neg (by simp [List.isEmpty_iff, hemp]), List.append_assoc]

theorem infT_rstripP {w s : List Char} (hwne : w ≠ [])
    (hl : ∀ c, w.getLast? = some c → pySpace c = false)
    (h : ∃ a b, s = a ++ w ++ b) :
    ∃ a b, rstripP pySpace s = a ++ w ++ b := by
  obtain ⟨a, b, rfl⟩ := h
  have hw : rstripP pySpace w = w := rstripP_eq_self hl
  by_cases hbnil : rstripP pySpace b = []
  · refine ⟨a, [], ?_⟩
    rw [List.append_assoc, rstripP_append, rstripP_append, if_pos hbnil, hw,
      if_neg hwne, List.append_nil]
  · refine ⟨a, rstripP pySpace b, ?_⟩
    have hne : w ++ rstripP pySpace b ≠ [] := by
      cases w with
      | nil => exact absurd rfl hwne
      | cons w0 t => simp
    rw [List.append_assoc, rstripP_append, rstripP_append, if_neg hbnil]
    rw [if_neg hne]
    rw [List.append_assoc]

theorem infT_dropLast_semi {w s : List Char} (hwne : w ≠ [])
    (hnos : (';' : Char) ∉ w) (hsemi : s.getLast? = some ';')
    (h : ∃ a b, s = a ++ w ++ b) :
    ∃ a b, s.dropLast = a ++ w ++ b := by
  obtain ⟨a, b, rfl⟩ := h
  have hbne : b ≠ [] := by
    intro hbnil
    subst hbnil
    rw [List.append_nil, getLast?_append_right hwne] at hsemi
    exact hnos (mem_of_getLast?_eq hsemi)
  refine ⟨a, b.dropLast, ?_⟩
  rw [List.dropLast_append_of_ne_nil _ hbne, List.append_assoc]

theorem infT_normalize {w sql parsed : List Char} (hwne : w ≠ [])
    (hw : ∀ c ∈ w, wordChar c = true)
    (hnorm : guards.normalize sql = .ok parsed)
    (h : ∃ a b, upperL sql = a ++ w ++ b) :
    ∃ a b, upperL parsed = a ++ w ++ b := by
  have hh : ∀ c, w.head? = some c → pySpace c = false :=
    fun c hc => wordChar_not_pySpace (hw c (mem_of_head?_eq hc))
  have hl : ∀ c, w.getLast? = some c → pySpace c = false :=
    fun c hc => wordChar_not_pySpace (hw c (mem_of_getLast?_eq hc))
  have hnos : (';' : Char) ∉ w := by
    intro hmem
    have := hw _ hmem
    simp [wordChar_iff, semicolon_toNat] at this
  have step1 : ∃ a b, upperL (pystrip sql) = a ++ w ++ b := by
    rw [upperL_pystrip, pystrip]
    exact infT_rstripP hwne hl (infT_dropWhile hwne hh h)
  obtain ⟨hne, hc | hc⟩ := normalize_ok_cases hnorm
  · obtain ⟨hsemi, hp⟩ := hc
    have hsemiU : (upperL (pystrip sql)).getLast? = some ';' :=
      upperL_getLast?_semi (getLastD_semi_getLast? hne hsemi)
    have step2 := infT_dropLast_semi hwne hnos hsemiU step1
    have hEq : upperL parsed = pystrip ((upperL (pystrip sql)).dropLast) := by
      rw [hp, upperL_pystrip, upperL_dropLast]
    have step3 : ∃ a b, pystrip ((upperL (pystrip sql)).dropLast) =
        a ++ w ++ b := by
      rw [pystrip]
      exact infT_rstripP hwne hl (infT_dropWhile hwne hh step2)
    rw [hEq]
    exact step3
  · rw [hc.2, upperL_pystrip]
    rw [upperL_pystrip] at step1
    exact step1

theorem not_infix_upperL_of_normalize {w sql parsed : List Char}
    (hnorm : guards.normalize sql = .ok parsed)
    (habs : infixB w (upperL sql) = false) :
    infixB w (upperL parsed) = false := by
  cases hc : infixB w (upperL parsed) with
  | false => rfl
  | true =>
    exfalso
    obtain ⟨a, b, hab⟩ := infixB_iff.mp hc
    obtain ⟨x, y, hxy⟩ := normalize_sub hnorm
    have : infixB w (upperL sql) = true := by
      rw [infixB_iff]
      refine ⟨upperL x ++ a, b ++ upperL y, ?_⟩
      rw [hxy, upperL_append, upperL_append, hab]
      simp [List.append_assoc]
    rw [this] at habs
    exact absurd habs (by simp)

theorem infix_append_cases {w A B : List Char} (hwne : w ≠ [])
    (h : infixB w (A ++ B) = true) :
    infixB w A = true ∨ ∃ c, c ∈ w ∧ c ∈ B := by
  obtain ⟨a, b, hab⟩ := infixB_iff.mp h
  rw [List.append_assoc] at hab
  rcases List.append_eq_append_iff.mp hab with ⟨a', ha', hb'⟩ | ⟨c', hc', hw'⟩
  · -- the occurrence starts inside B
    right
    cases w with
    | nil => exact absurd rfl hwne
    | cons w0 t =>
      refine ⟨w0, by simp, ?_⟩
      rw [hb']
      cases a' with
      | nil => simp
      | cons d u => simp
  · -- A = a ++ c', and w ++ b = c' ++ B
    rcases List.append_eq_append_iff.mp hw'.symm with ⟨u, hu, hb⟩ | ⟨v, hv, hB⟩
    · -- w = c' ++ u and B = u ++ b
      cases u with
      | nil =>
        left
        rw [infixB_iff]
        refine ⟨a, [], ?_⟩
        rw [hc']
        rw [List.append_nil] at hu
        rw [hu]
        simp
      | cons u0 t =>
        right
        refine ⟨u0, ?_, ?_⟩
        · rw [hu]
          simp
        · rw [hb]
          simp
    · -- c' = w ++ v : the whole of w sits inside A
      left
      rw [infixB_iff]
      exact ⟨a, v, by rw [hc', hv, List.append_assoc]⟩

/-!
## Pipeline behaviour lemmas
-/

theorem find?_unique {α : Type} {p : α → Bool} {l : List α} {a : α}
    (hmem : a ∈ l) (ha : p a = true)
    (huniq : ∀ b ∈ l, p b = true → b = a) : l.find? p = some a := by
  induction l with
  | nil => simp at hmem
  | cons c t ih =>
    by_cases hc : p c = true
    · rw [List.find?_cons_of_pos _ hc]
      rw [huniq c (by simp) hc]
    · rw [List.find?_cons_of_neg _ hc]
      rcases List.mem_cons.mp hmem with rfl | hmem2
      · exact absurd ha hc
      · exact ih hmem2 (fun b hb hpb => huniq b (List.mem_cons_of_mem _ hb) hpb)

theorem denylistCheck_error_of {upper kw : List Char}
    (hmem : kw ∈ guards.DENYLIST_KEYWORDS)
    (hocc : wordOccurs kw upper = true) :
    ∃ e, guards.denylistCheck upper = .error e := by
  have hsome : (guards.DENYLIST_KEYWORDS.find?
      (fun k => wordOccurs k upper)).isSome = true :=
    List.find?_isSome.mpr ⟨kw, hmem, hocc⟩
  unfold guards.denylistCheck
  cases hf : guards.DENYLIST_KEYWORDS.find? (fun k => wordOccurs k upper) with
  | none =>
    rw [hf] at hsome
    simp at hsome
  | some k => exact ⟨.disallowedKeyword k, rfl⟩

theorem denylistCheck_unique {upper kw : List Char}
    (hmem : kw ∈ guards.DENYLIST_KEYWORDS)
    (hocc : wordOccurs kw upper = true)
    (huniq : ∀ k' ∈ guards.DENYLIST_KEYWORDS, wordOccurs k' upper = true →
      k' = kw) :
    guards.denylistCheck upper = .error (.disallowedKeyword kw) := by
  unfold guards.denylistCheck
  rw [find?_unique hmem hocc huniq]

theorem read_only_error_of_kw {sql kw : List Char}
    (hmem : kw ∈ guards.DENYLIST_KEYWORDS)
    (hocc : wordOccurs kw (upperL (pylstrip sql)) = true) :
    ∃ e, guards.ensure_read_only sql = .error e := by
  unfold guards.ensure_read_only
  obtain ⟨e, he⟩ := denylistCheck_error_of hmem hocc
  by_cases h1 : isPrefixL (toL "WITH") (upperL (pylstrip sql)) = true
  · rw [if_pos h1]
    by_cases h2 : infixB (toL "SELECT") (upperL (pylstrip sql)) = true
    · rw [if_pos h2, he]
      exact ⟨e, rfl⟩
    · rw [if_neg h2]
      exact ⟨.cteWithoutSelect, rfl⟩
  · rw [if_neg h1]
    by_cases h2 : isPrefixL (toL "SELECT") (upperL (pylstrip sql)) = true
    · rw [if_pos h2, he]
      exact ⟨e, rfl⟩
    · rw [if_neg h2]
      exact ⟨.notSelect, rfl⟩

theorem read_only_ok_ne_nil {sql : List Char}
    (h : guards.ensure_read_only sql = .ok ()) : sql ≠ [] := by
  intro hnil
  subst hnil
  rw [show guards.ensure_read_only [] = .error .notSelect from rfl] at h
  exact absurd h (by simp)

theorem ensure_single_ok_no_semi {sql : List Char}
    (h : guards.ensure_single_statement sql = .ok ()) :
    (';' : Char) ∉ sql := by
  unfold guards.ensure_single_statement at h
  intro hmem
  rw [if_pos (contains_iff.mpr hmem)] at h
  exact absurd h (by simp)

theorem wl_sanitize_ok_shape {sql s : List Char}
    {cfg : whyline.GuardrailConfig}
    (h : whyline.sanitize_sql sql cfg = .ok s)
    (heng : ¬cfg.engine = toL "bigquery") :
    ∃ parsed, guards.normalize sql = .ok parsed ∧
      guards.ensure_single_statement parsed = .ok () ∧
      guards.ensure_read_only parsed = .ok () ∧
      whyline.validate_tables parsed cfg.allowed_models cfg.allowed_projects
        cfg.allowed_datasets = .ok () ∧
      s = guards.ensure_limit parsed cfg.enforce_limit := by
  unfold whyline.sanitize_sql at h
  split at h
  · exact absurd h (by simp)
  · rename_i parsed hn
    split at h
    · exact absurd h (by simp)
    · rename_i u hs
      split at h
      · exact absurd h (by simp)
      · rename_i u2 hr
        split at h
        · exact absurd h (by simp)
        · rename_i u3 hv
          rw [if_neg heng] at h
          simp only [Except.ok.injEq] at h
          exact ⟨parsed, hn, by cases u; exact hs, by cases u2; exact hr,
            by cases u3; exact hv, h.symm⟩

theorem wld_sanitize_ok_shape {sql s : List Char}
    {cfg : whylinedenver.GuardrailConfig}
    (h : whylinedenver.sanitize_sql sql cfg = .ok s) :
    ∃ parsed, guards.normalize sql = .ok parsed ∧
      guards.ensure_single_statement parsed = .ok () ∧
      guards.ensure_read_only parsed = .ok () ∧
      whylinedenver.validate_tables parsed cfg.allowed_models = .ok () ∧
      s = guards.ensure_limit parsed cfg.enforce_limit := by
  unfold whylinedenver.sanitize_sql at h
  split at h
  · exact absurd h (by simp)
  · rename_i parsed hn
    split at h
    · exact absurd h (by simp)
    · rename_i u hs
      split at h
      · exact absurd h (by simp)
      · rename_i u2 hr
        split at h
        · exact absurd h (by simp)
        · rename_i u3 hv
          refine ⟨parsed, hn, by cases u; exact hs, by cases u2; exact hr,
            by cases u3; exact hv, ?_⟩
          by_cases heng : cfg.engine = toL "bigquery"
          · rw [if_pos heng] at h
            split at h
            · exact absurd h (by simp)
            · simp only [Except.ok.injEq] at h
              exact h.symm
          · rw [if_neg heng] at h
            simp only [Except.ok.injEq] at h
            exact h.symm

theorem wl_sanitize_error_of_normalize {sql : List Char}
    {cfg : whyline.GuardrailConfig} {e : GuardErr}
    (h : guards.normalize sql = .error e) :
    whyline.sanitize_sql sql cfg = .error e := by
  unfold whyline.sanitize_sql
  rw [h]

theorem wld_sanitize_error_of_normalize {sql : List Char}
    {cfg : whylinedenver.GuardrailConfig} {e : GuardErr}
    (h : guards.normalize sql = .error e) :
    whylinedenver.sanitize_sql sql cfg = .error e := by
  unfold whylinedenver.sanitize_sql
  rw [h]

theorem wl_sanitize_error_of_read_only {sql parsed : List Char}
    {cfg : whyline.GuardrailConfig}
    (hn : guards.normalize sql = .ok parsed)
    (hr : ∃ e, guards.ensure_read_only parsed = .error e) :
    ∃ e, whyline.sanitize_sql sql cfg = .error e := by
  unfold whyline.sanitize_sql
  rw [hn]
  obtain ⟨e, he⟩ := hr
  cases hs : guards.ensure_single_statement parsed with
  | error e2 => exact ⟨e2, by simp only [hs]⟩
  | ok u => exact ⟨e, by simp only [hs, he]⟩

theorem wld_sanitize_error_of_read_only {sql parsed : List Char}
    {cfg : whylinedenver.GuardrailConfig}
    (hn : guards.normalize sql = .ok parsed)
    (hr : ∃ e, guards.ensure_read_only parsed = .error e) :
    ∃ e, whylinedenver.sanitize_sql sql cfg = .error e := by
  unfold whylinedenver.sanitize_sql
  rw [hn]
  obtain ⟨e, he⟩ := hr
  cases hs : guards.ensure_single_statement parsed with
  | error e2 => exact ⟨e2, by simp only [hs]⟩
  | ok u => exact ⟨e, by simp only [hs, he]⟩

/-!
## The claims
-/

/-- C4: table names bound as CTEs in the same query — matched as
`WITH <name> AS (` or, for comma-chained CTEs, `, <name> AS (`, bare or
backtick-quoted — are excluded from allow-list validation: no extracted
reference carries a table matching a CTE name, `WITH foo AS (SELECT 1)
SELECT * FROM foo` sanitizes successfully against an allow-list without
`foo`, and a query whose second, comma-chained CTE name is absent from the
allow-list passes as well. -/
theorem c4_cte_exemption :
    (∀ (sql : List Char) (r : whyline.RefId),
        r ∈ whyline.extract_referenced_identifiers sql →
        r.table ∉ (cteFindAll true sql).map (fun n => lowerL (stripBT n))) ∧
    whyline.sanitize_sql (toL "WITH foo AS (SELECT 1) SELECT * FROM foo")
        { allowed_models := [toL "mart_x"], engine := toL "duckdb" } =
      .ok (toL "WITH foo AS (SELECT 1) SELECT * FROM foo\nLIMIT 5000") ∧
    whyline.sanitize_sql
        (toL "WITH a AS (SELECT 1), b AS (SELECT 2) SELECT * FROM b")
        { allowed_models := [toL "mart_x"], engine := toL "duckdb" } =
      .ok (toL "WITH a AS (SELECT 1), b AS (SELECT 2) SELECT * FROM b\nLIMIT 5000") := by
  refine ⟨?_, by decide, by decide⟩
  intro sql r hr
  unfold whyline.extract_referenced_identifiers at hr
  have h2 := (List.mem_filter.mp hr).2
  simp only [Bool.not_eq_true'] at h2
  intro hmem
  rw [containsL_iff.mpr hmem] at h2
  exact absurd h2 (by simp)

/-- Witness for C4 at a query with one CTE and one real reference. -/
theorem c4_witness :
    (⟨none, none, toL "mart_x", toL "mart_x"⟩ : whyline.RefId) ∈
      whyline.extract_referenced_identifiers
        (toL "WITH foo AS (SELECT 1) SELECT * FROM foo JOIN mart_x ON 1=1") ∧
    (⟨none, none, toL "mart_x", toL "mart_x"⟩ : whyline.RefId).table ∉
      ((cteFindAll true
          (toL "WITH foo AS (SELECT 1) SELECT * FROM foo JOIN mart_x ON 1=1")).map
        (fun n => lowerL (stripBT n))) := by
  refine ⟨by decide, ?_⟩
  exact c4_cte_exemption.1
    (toL "WITH foo AS (SELECT 1) SELECT * FROM foo JOIN mart_x ON 1=1")
    ⟨none, none, toL "mart_x", toL "mart_x"⟩ (by decide)

/-- C5: if the SQL contains no `LIMIT <n>` token, `_ensure_limit` appends a
newline and `LIMIT <enforce_limit>`; if a LIMIT is already present (even one
larger than the policy default) the statement passes through unchanged; the
concrete end-to-end scenario of the spec produces
`SELECT stop_id FROM mart_access_score_by_stop\nLIMIT 123`, and a query with
an oversized LIMIT is returned unchanged by the full sanitizer. -/
theorem c5_limit_enforcer :
    (∀ (sql : List Char) (n : Nat), limitSearch sql = false →
        guards.ensure_limit sql n = sql ++ toL "\nLIMIT " ++ natDigits n) ∧
    (∀ (sql : List Char) (n : Nat), limitSearch sql = true →
        guards.ensure_limit sql n = sql) ∧
    whylinedenver.sanitize_sql
        (toL "SELECT stop_id FROM mart_access_score_by_stop")
        { allowed_models := [toL "mart_access_score_by_stop"],
          engine := toL "duckdb", enforce_limit := 123 } =
      .ok (toL "SELECT stop_id FROM mart_access_score_by_stop\nLIMIT 123") ∧
    whylinedenver.sanitize_sql
        (toL "SELECT stop_id FROM mart_access_score_by_stop LIMIT 999999")
        { allowed_models := [toL "mart_access_score_by_stop"],
          engine := toL "duckdb", enforce_limit := 123 } =
      .ok (toL "SELECT stop_id FROM mart_access_score_by_stop LIMIT 999999") :=
  ⟨fun _ _ h => ensure_limit_no_limit h, fun _ _ h => ensure_limit_has_limit h,
    by decide, by decide⟩

/-- Witness for C5 at a LIMIT-free and a LIMIT-carrying statement. -/
theorem c5_witness :
    guards.ensure_limit (toL "SELECT 1") 123 =
      toL "SELECT 1" ++ toL "\nLIMIT " ++ natDigits 123 ∧
    guards.ensure_limit (toL "SELECT 1 LIMIT 7") 123 =
      toL "SELECT 1 LIMIT 7" :=
  ⟨c5_limit_enforcer.1 (toL "SELECT 1") 123 (by decide),
    c5_limit_enforcer.2.1 (toL "SELECT 1 LIMIT 7") 123 (by decide)⟩

/-- C1: the allow-list check itself is sound and complete —
`_ensure_tables_are_allowlisted` succeeds exactly when every extracted
reference's table name is in the allowed set, and when some reference's table
is outside it the raised error lists that table and its message contains the
table's name.  (The claim's blanket form over `sanitize_sql` — every SQL
string referencing only allowed tables sanitizes successfully — is refuted by
`c1_counterexample`: earlier pipeline stages can reject such a query.) -/
theorem c1_allowlist_soundness (refs : List whyline.RefId)
    (allowed : List (List Char)) :
    (whyline.ensure_tables_are_allowlisted refs allowed = .ok () ↔
      ∀ r ∈ refs, r.table ∈ allowed) ∧
    (∀ r ∈ refs, r.table ∉ allowed →
      ∃ u, whyline.ensure_tables_are_allowlisted refs allowed =
          .error (.unauthorizedTables u) ∧ r.table ∈ u ∧
        ∃ a b, renderErr (.unauthorizedTables u) = a ++ r.table ++ b) := by
  have hdef : whyline.ensure_tables_are_allowlisted refs allowed =
      (if sortLex ((refs.filterMap (fun r =>
          if allowed.contains r.table then none else some r.table)).dedup) = []
       then Except.ok ()
       else .error (.unauthorizedTables (sortLex ((refs.filterMap (fun r =>
          if allowed.contains r.table then none
          else some r.table)).dedup)))) := rfl
  have hmemu : ∀ r ∈ refs, r.table ∉ allowed →
      r.table ∈ sortLex ((refs.filterMap (fun r =>
        if allowed.contains r.table then none else some r.table)).dedup) := by
    intro r hr hna
    rw [mem_sortLex, List.mem_dedup]
    exact List.mem_filterMap.mpr ⟨r, hr,
      by rw [if_neg (fun hc => hna (containsL_iff.mp hc))]⟩
  constructor
  · constructor
    · intro hok r hr
      by_cases hna : r.table ∈ allowed
      · exact hna
      · exfalso
        have hm := hmemu r hr hna
        have hne : sortLex ((refs.filterMap (fun r =>
            if allowed.contains r.table then none
            else some r.table)).dedup) ≠ [] := by
          intro h
          rw [h] at hm
          simp at hm
        rw [hdef, if_neg hne] at hok
        exact absurd hok (by simp)
    · intro hall
      have hz : sortLex ((refs.filterMap (fun r =>
          if allowed.contains r.table then none
          else some r.table)).dedup) = [] := by
        rw [sortLex_eq_nil, List.dedup_eq_nil, List.filterMap_eq_nil_iff]
        intro r hr
        rw [if_pos (containsL_iff.mpr (hall r hr))]
      rw [hdef, if_pos hz]
  · intro r hr hna
    have hm := hmemu r hr hna
    have hne : sortLex ((refs.filterMap (fun r =>
        if allowed.contains r.table then none
        else some r.table)).dedup) ≠ [] := by
      intro h
      rw [h] at hm
      simp at hm
    refine ⟨_, by rw [hdef, if_neg hne], hm, ?_⟩
    obtain ⟨a, b, hab⟩ := mem_flatten_intersperse hm
    refine ⟨toL "Query references unauthorized tables: " ++ a,
      b ++ toL ". Only app-approved marts may be queried.", ?_⟩
    simp only [renderErr]
    rw [hab]
    simp [List.append_assoc]

/-- Witness for C1 at a one-reference list against a matching and a
non-matching allow-list. -/
theorem c1_witness :
    whyline.ensure_tables_are_allowlisted
        [⟨none, none, toL "mart_x", toL "mart_x"⟩] [toL "mart_x"] = .ok () ∧
    ∃ u, whyline.ensure_tables_are_allowlisted
        [⟨none, none, toL "mart_unknown", toL "mart_unknown"⟩]
        [toL "mart_x"] = .error (.unauthorizedTables u) ∧
      toL "mart_unknown" ∈ u ∧
      ∃ a b, renderErr (.unauthorizedTables u) =
        a ++ toL "mart_unknown" ++ b := by
  constructor
  · exact (c1_allowlist_soundness [⟨none, none, toL "mart_x", toL "mart_x"⟩]
      [toL "mart_x"]).1.mpr (by decide)
  · exact (c1_allowlist_soundness
      [⟨none, none, toL "mart_unknown", toL "mart_unknown"⟩] [toL "mart_x"]).2
      ⟨none, none, toL "mart_unknown", toL "mart_unknown"⟩ (by decide)
      (by decide)

/-- C1 counterexample: `DELETE FROM mart_x` references only the allowed base
name `mart_x` (its sole extracted table reference), yet both revisions of
`sanitize_sql` reject it — the success direction of the claim over the whole
pipeline is false because earlier stages run first. -/
theorem c1_counterexample :
    (whyline.extract_referenced_identifiers (toL "DELETE FROM mart_x")).map
        (fun r => r.table) = [toL "mart_x"] ∧
    whylinedenver.sanitize_sql (toL "DELETE FROM mart_x")
        { allowed_models := [toL "mart_x"], engine := toL "duckdb" } =
      .error .notSelect ∧
    whyline.sanitize_sql (toL "DELETE FROM mart_x")
        { allowed_models := [toL "mart_x"], engine := toL "duckdb" } =
      .error .notSelect := by
  decide

/-- Every denylisted keyword is a non-empty all-word-character string. -/
theorem denylist_wf :
    ∀ kw ∈ guards.DENYLIST_KEYWORDS, kw ≠ [] ∧ ∀ c ∈ kw, wordChar c = true := by
  decide

/-- C3: a whole-word occurrence of a denylisted keyword anywhere in the input
(case-insensitively; the occurrence is stated on the upper-cased raw input
and survives normalization) makes both revisions of `sanitize_sql` raise; and
when the normalized statement has no residual semicolon, starts with `SELECT`
and the keyword is the only denylisted offender, the raised error is exactly
`disallowedKeyword` and its message names the keyword.  (The claim's
unconditional "naming the offending keyword" is refuted by
`c3_counterexample`: a statement that does not start with `SELECT` fails
earlier with a message that does not name the keyword.) -/
theorem c3_denylist_rejection (kw sql parsed : List Char)
    (cfg : whylinedenver.GuardrailConfig) (cfg2 : whyline.GuardrailConfig)
    (hkw : kw ∈ guards.DENYLIST_KEYWORDS)
    (hn : guards.normalize sql = .ok parsed)
    (hocc : ∃ a b, upperL sql = a ++ kw ++ b ∧ lastNW a = true ∧
      headNW b = true) :
    (∃ e, whylinedenver.sanitize_sql sql cfg = .error e) ∧
    (∃ e, whyline.sanitize_sql sql cfg2 = .error e) ∧
    ((';' : Char) ∉ parsed →
      isPrefixL (toL "SELECT") (upperL parsed) = true →
      (∀ k ∈ guards.DENYLIST_KEYWORDS,
        wordOccurs k (upperL parsed) = true → k = kw) →
      whylinedenver.sanitize_sql sql cfg = .error (.disallowedKeyword kw) ∧
      ∃ a b, renderErr (.disallowedKeyword kw) = a ++ kw ++ b) := by
  obtain ⟨hkne, hkchars⟩ := denylist_wf kw hkw
  have hop : ∃ a b, upperL parsed = a ++ kw ++ b ∧ lastNW a = true ∧
      headNW b = true := occT_normalize hkne hkchars hn hocc
  have hoccp : wordOccurs kw (upperL parsed) = true :=
    (wordOccurs_iff hkne).mpr hop
  have hoccp' : wordOccurs kw (upperL (pylstrip parsed)) = true := by
    rw [normalize_ok_pylstrip hn]
    exact hoccp
  have hroe : ∃ e, guards.ensure_read_only parsed = .error e :=
    read_only_error_of_kw hkw hoccp'
  refine ⟨wld_sanitize_error_of_read_only hn hroe,
    wl_sanitize_error_of_read_only hn hroe, ?_⟩
  intro hsemi hsel huniq
  have hss : guards.ensure_single_statement parsed = .ok () := by
    unfold guards.ensure_single_statement
    rw [if_neg (fun hc => hsemi (contains_iff.mp hc))]
  have hw : isPrefixL (toL "WITH") (upperL parsed) = false := by
    cases hc : isPrefixL (toL "WITH") (upperL parsed) with
    | false => rfl
    | true =>
      exfalso
      obtain ⟨b1, hb1⟩ := isPrefixL_iff.mp hc
      obtain ⟨b2, hb2⟩ := isPrefixL_iff.mp hsel
      rw [hb1] at hb2
      have := congrArg List.head? hb2
      simp [toL] at this
  have hro : guards.ensure_read_only parsed =
      guards.denylistCheck (upperL parsed) := by
    unfold guards.ensure_read_only
    rw [normalize_ok_pylstrip hn]
    rw [if_neg (by simp [hw]), if_pos hsel]
  have hdc : guards.ensure_read_only parsed =
      .error (.disallowedKeyword kw) := by
    rw [hro]
    exact denylistCheck_unique hkw hoccp huniq
  refine ⟨?_, toL "Disallowed keyword detected: ", toL ".", rfl⟩
  unfold whylinedenver.sanitize_sql
  rw [hn]
  simp only [hss, hdc]

/-- Witness for C3 at `SELECT delete FROM mart_x`, whose only denylist
offender is `DELETE`. -/
theorem c3_witness :
    (∃ e, whylinedenver.sanitize_sql (toL "SELECT delete FROM mart_x")
        { allowed_models := [toL "mart_x"], engine := toL "duckdb" } =
      .error e) ∧
    whylinedenver.sanitize_sql (toL "SELECT delete FROM mart_x")
        { allowed_models := [toL "mart_x"], engine := toL "duckdb" } =
      .error (.disallowedKeyword (toL "DELETE")) := by
  have h := c3_denylist_rejection (toL "DELETE")
    (toL "SELECT delete FROM mart_x") (toL "SELECT delete FROM mart_x")
    { allowed_models := [toL "mart_x"], engine := toL "duckdb" }
    { allowed_models := [toL "mart_x"], engine := toL "duckdb" }
    (by decide) (by decide)
    ⟨toL "SELECT ", toL " FROM MART_X", by decide, by decide, by decide⟩
  exact ⟨h.1, (h.2.2 (by decide) (by decide) (by decide)).1⟩

/-- C3 counterexample: `INSERT INTO mart_x VALUES (1)` contains the
denylisted keyword `INSERT` as a whole word, yet `sanitize_sql` raises
`notSelect`, whose message does not name `INSERT` — the pipeline checks the
statement shape before the denylist, so the error does not always name the
offending keyword. -/
theorem c3_counterexample :
    wordOccurs (toL "INSERT")
        (upperL (toL "INSERT INTO mart_x VALUES (1)")) = true ∧
    whylinedenver.sanitize_sql (toL "INSERT INTO mart_x VALUES (1)")
        { allowed_models := [toL "mart_x"], engine := toL "duckdb" } =
      .error .notSelect ∧
    ¬∃ a b, renderErr GuardErr.notSelect = a ++ toL "INSERT" ++ b := by
  refine ⟨by decide, by decide, ?_⟩
  intro hex
  have h1 : infixB (toL "INSERT") (renderErr GuardErr.notSelect) = true :=
    infixB_iff.mpr hex
  have h2 : infixB (toL "INSERT") (renderErr GuardErr.notSelect) = false := by
    decide
  rw [h1] at h2
  exact absurd h2 (by decide)

/-- Unfolding of `_ensure_authorized_namespaces` once the both-sets-empty
skip is ruled out. -/
theorem ensure_ns_unfold (refs : List whyline.RefId)
    (ap ad : List (List Char)) (h : ¬(ap = [] ∧ ad = [])) :
    whyline.ensure_authorized_namespaces refs ap ad =
      (let invalid_projects := sortLex ((refs.filterMap (fun r =>
          match r.project with
          | some p =>
            if p ≠ [] ∧ ap ≠ [] ∧ !(ap.contains p) then some r.token else none
          | none => none)).dedup)
       let invalid_datasets := sortLex ((refs.filterMap (fun r =>
          match r.dataset with
          | some d =>
            if d ≠ [] ∧ ad ≠ [] ∧ !(ad.contains d) then some r.token else none
          | none => none)).dedup)
       if invalid_projects ≠ [] then
         .error (.unauthorizedProjects invalid_projects)
       else if invalid_datasets ≠ [] then
         .error (.unauthorizedDatasets invalid_datasets)
       else .ok ()) := by
  unfold whyline.ensure_authorized_namespaces
  rw [if_neg h]

/-- C2: when both allowed sets are empty the namespace check is skipped; a
reference whose (present, non-empty) project lies outside a non-empty allowed
project set makes the check fail with `unauthorizedProjects` listing its raw
token; a dataset violation likewise forces an error; and concretely, with
`allowed_projects = {proj-a}`, a query referencing `` `proj-b.dataset.table` ``
fails even though `table` alone is allow-listed, while the same query with no
project/dataset constraints passes. -/
theorem c2_namespace_enforcement :
    (∀ (refs : List whyline.RefId),
        whyline.ensure_authorized_namespaces refs [] [] = .ok ()) ∧
    (∀ (refs : List whyline.RefId) (ap ad : List (List Char))
        (r : whyline.RefId) (p : List Char),
        r ∈ refs → r.project = some p → p ≠ [] → ap ≠ [] → p ∉ ap →
        ∃ u, whyline.ensure_authorized_namespaces refs ap ad =
            .error (.unauthorizedProjects u) ∧ r.token ∈ u) ∧
    (∀ (refs : List whyline.RefId) (ap ad : List (List Char))
        (r : whyline.RefId) (d : List Char),
        r ∈ refs → r.dataset = some d → d ≠ [] → ad ≠ [] → d ∉ ad →
        ∃ e, whyline.ensure_authorized_namespaces refs ap ad = .error e) ∧
    whyline.sanitize_sql (toL "SELECT * FROM `proj-b.dataset.table`")
        { allowed_models := [toL "table"], engine := toL "duckdb",
          allowed_projects := some [toL "proj-a"] } =
      .error (.unauthorizedProjects [toL "`proj-b.dataset.table`"]) ∧
    whyline.sanitize_sql (toL "SELECT * FROM `proj-b.dataset.table`")
        { allowed_models := [toL "table"], engine := toL "duckdb" } =
      .ok (toL "SELECT * FROM `proj-b.dataset.table`\nLIMIT 5000") := by
  refine ⟨?_, ?_, ?_, by decide, by decide⟩
  · intro refs
    unfold whyline.ensure_authorized_namespaces
    rw [if_pos ⟨rfl, rfl⟩]
  · intro refs ap ad r p hr hp hpne hapne hnot
    have hcf : ap.contains p = false := by
      cases hc : ap.contains p with
      | false => rfl
      | true => exact absurd (containsL_iff.mp hc) hnot
    have hf : (fun r : whyline.RefId =>
        match r.project with
        | some p =>
          if p ≠ [] ∧ ap ≠ [] ∧ !(ap.contains p) then some r.token else none
        | none => none) r = some r.token := by
      have hb : (fun r : whyline.RefId =>
          match r.project with
          | some p =>
            if p ≠ [] ∧ ap ≠ [] ∧ !(ap.contains p) then some r.token else none
          | none => none) r =
          (match r.project with
           | some p =>
             if p ≠ [] ∧ ap ≠ [] ∧ !(ap.contains p) then some r.token
             else none
           | none => none) := rfl
      rw [hb, hp]
      exact if_pos ⟨hpne, hapne, by rw [hcf]; rfl⟩
    have hmem : r.token ∈ sortLex ((refs.filterMap (fun r =>
        match r.project with
        | some p =>
          if p ≠ [] ∧ ap ≠ [] ∧ !(ap.contains p) then some r.token else none
        | none => none)).dedup) := by
      rw [mem_sortLex, List.mem_dedup]
      exact List.mem_filterMap.mpr ⟨r, hr, hf⟩
    have hne : sortLex ((refs.filterMap (fun r =>
        match r.project with
        | some p =>
          if p ≠ [] ∧ ap ≠ [] ∧ !(ap.contains p) then some r.token else none
        | none => none)).dedup) ≠ [] := by
      intro h
      rw [h] at hmem
      simp at hmem
    refine ⟨_, ?_, hmem⟩
    rw [ensure_ns_unfold refs ap ad (fun hc => hapne hc.1)]
    exact if_pos hne
  · intro refs ap ad r d hr hd hdne hadne hnot
    have hcf : ad.contains d = false := by
      cases hc : ad.contains d with
      | false => rfl
      | true => exact absurd (containsL_iff.mp hc) hnot
    have hf : (fun r : whyline.RefId =>
        match r.dataset with
        | some d =>
          if d ≠ [] ∧ ad ≠ [] ∧ !(ad.contains d) then some r.token else none
        | none => none) r = some r.token := by
      have hb : (fun r : whyline.RefId =>
          match r.dataset with
          | some d =>
            if d ≠ [] ∧ ad ≠ [] ∧ !(ad.contains d) then some r.token else none
          | none => none) r =
          (match r.dataset with
           | some d =>
             if d ≠ [] ∧ ad ≠ [] ∧ !(ad.contains d) then some r.token
             else none
           | none => none) := rfl
      rw [hb, hd]
      exact if_pos ⟨hdne, hadne, by rw [hcf]; rfl⟩
    have hmem : r.token ∈ sortLex ((refs.filterMap (fun r =>
        match r.dataset with
        | some d =>
          if d ≠ [] ∧ ad ≠ [] ∧ !(ad.contains d) then some r.token else none
        | none => none)).dedup) := by
      rw [mem_sortLex, List.mem_dedup]
      exact List.mem_filterMap.mpr ⟨r, hr, hf⟩
    have hnotnil : sortLex ((refs.filterMap (fun r =>
        match r.dataset with
        | some d =>
          if d ≠ [] ∧ ad ≠ [] ∧ !(ad.contains d) then some r.token else none
        | none => none)).dedup) ≠ [] := by
      intro h
      rw [h] at hmem
      simp at hmem
    rw [ensure_ns_unfold refs ap ad (fun hc => hadne hc.2)]
    by_cases hip : sortLex ((refs.filterMap (fun r =>
        match r.project with
        | some p =>
          if p ≠ [] ∧ ap ≠ [] ∧ !(ap.contains p) then some r.token else none
        | none => none)).dedup) ≠ []
    · exact ⟨_, if_pos hip⟩
    · exact ⟨_, (if_neg hip).trans (if_pos hnotnil)⟩

/-- Witness for C2 at a single out-of-set project reference and a single
out-of-set dataset reference. -/
theorem c2_witness :
    (∃ u, whyline.ensure_authorized_namespaces
        [⟨some (toL "proj-b"), some (toL "dataset"), toL "table",
          toL "`proj-b.dataset.table`"⟩] [toL "proj-a"] [] =
        .error (.unauthorizedProjects u) ∧
      toL "`proj-b.dataset.table`" ∈ u) ∧
    ∃ e, whyline.ensure_authorized_namespaces
        [⟨none, some (toL "ds-b"), toL "table", toL "ds-b.table"⟩]
        [] [toL "ds-a"] = .error e := by
  constructor
  · exact c2_namespace_enforcement.2.1
      [⟨some (toL "proj-b"), some (toL "dataset"), toL "table",
        toL "`proj-b.dataset.table`"⟩] [toL "proj-a"] []
      ⟨some (toL "proj-b"), some (toL "dataset"), toL "table",
        toL "`proj-b.dataset.table`"⟩ (toL "proj-b")
      (by decide) (by decide) (by decide) (by decide) (by decide)
  · exact c2_namespace_enforcement.2.2.1
      [⟨none, some (toL "ds-b"), toL "table", toL "ds-b.table"⟩]
      [] [toL "ds-a"]
      ⟨none, some (toL "ds-b"), toL "table", toL "ds-b.table"⟩ (toL "ds-b")
      (by decide) (by decide) (by decide) (by decide) (by decide)

/-- Every character of the upper-cased appended LIMIT clause is either one of
the literal clause characters or a digit. -/
theorem upper_clause_chars {n : Nat} {c : Char}
    (h : c ∈ upperL (limitClause n)) :
    c ∈ toL "\nLIMIT " ∨ isDigitC c = true := by
  rw [limitClause, upperL_append, List.mem_append] at h
  rcases h with h1 | h2
  · left
    have hu : upperL (toL "\nLIMIT ") = toL "\nLIMIT " := by decide
    rw [hu] at h1
    exact h1
  · right
    rw [upperL] at h2
    obtain ⟨d, hd, rfl⟩ := List.mem_map.mp h2
    rw [isDigitC_upC (natDigits_all_digit n d hd)]
    exact natDigits_all_digit n d hd

/-- No character of `WHERE` occurs in the upper-cased appended LIMIT
clause. -/
theorem where_disjoint_clause {n : Nat} {c : Char} (hc : c ∈ toL "WHERE")
    (hm : c ∈ upperL (limitClause n)) : False := by
  have hc2 : c ∈ ['W', 'H', 'E', 'R', 'E'] := hc
  rcases upper_clause_chars hm with h1 | h2
  · have h1b : c ∈ ['\n', 'L', 'I', 'M', 'I', 'T', ' '] := h1
    fin_cases hc2 <;> exact absurd h1b (by decide)
  · fin_cases hc2 <;> exact absurd h2 (by decide)

/-- `_suggest_partition_filter` with a single configured column fails naming
it when the column occurs (case-insensitively) in the statement and `WHERE`
occurs nowhere in it. -/
theorem spf_error_of {sql col : List Char}
    (h1 : infixB (upperL col) (upperL sql) = true)
    (h2 : infixB (toL "WHERE") (upperL sql) = false) :
    guards.suggest_partition_filter sql [col] =
      .error (.partitionNoWhere col) := by
  have hpred : (fun c : List Char =>
      infixB (upperL c) (upperL sql) &&
        !infixB (toL "WHERE") (upperL sql)) col = true := by
    have hpred0 : (infixB (upperL col) (upperL sql) &&
        !infixB (toL "WHERE") (upperL sql)) = true := by
      rw [h1, h2]
      rfl
    exact hpred0
  have hdef : guards.suggest_partition_filter sql [col] =
      (match [col].find? (fun c : List Char =>
          infixB (upperL c) (upperL sql) &&
            !infixB (toL "WHERE") (upperL sql)) with
       | some c => .error (.partitionNoWhere c)
       | none => .ok ()) := rfl
  rw [hdef, show List.find? (fun c : List Char =>
      infixB (upperL c) (upperL sql) &&
        !infixB (toL "WHERE") (upperL sql)) [col] = some col from
    List.find?_cons_of_pos _ hpred]

/-- `sanitize_sql` (whylinedenver) on the BigQuery path, given the stage
outcomes. -/
theorem wld_sanitize_big {sql parsed : List Char}
    {cfg : whylinedenver.GuardrailConfig}
    (hn : guards.normalize sql = .ok parsed)
    (hs : guards.ensure_single_statement parsed = .ok ())
    (hr : guards.ensure_read_only parsed = .ok ())
    (hv : whylinedenver.validate_tables parsed cfg.allowed_models = .ok ())
    (heng : cfg.engine = toL "bigquery") :
    whylinedenver.sanitize_sql sql cfg =
      (match guards.suggest_partition_filter
          (guards.ensure_limit parsed cfg.enforce_limit)
          cfg.partition_columns with
       | .error e => .error e
       | .ok _ => .ok (guards.ensure_limit parsed cfg.enforce_limit)) := by
  unfold whylinedenver.sanitize_sql
  rw [hn]
  simp [hs, hr, hv, heng]

/-- `sanitize_sql` (whylinedenver) on the non-BigQuery path, given the stage
outcomes. -/
theorem wld_sanitize_nonbig {sql parsed : List Char}
    {cfg : whylinedenver.GuardrailConfig}
    (hn : guards.normalize sql = .ok parsed)
    (hs : guards.ensure_single_statement parsed = .ok ())
    (hr : guards.ensure_read_only parsed = .ok ())
    (hv : whylinedenver.validate_tables parsed cfg.allowed_models = .ok ())
    (heng : ¬cfg.engine = toL "bigquery") :
    whylinedenver.sanitize_sql sql cfg =
      .ok (guards.ensure_limit parsed cfg.enforce_limit) := by
  unfold whylinedenver.sanitize_sql
  rw [hn]
  simp [hs, hr, hv, heng]

/-- C6: given a statement that passes the earlier stages, a non-empty
all-word-character partition column occurring (case-insensitively) in the raw
SQL with `WHERE` occurring nowhere in it makes the BigQuery run of
`sanitize_sql` fail with an error naming the column (the check is applied to
the LIMIT-augmented statement, where the column still occurs and `WHERE` is
still absent), while the identical DuckDB run succeeds.  (The claim's
unconditional form — any such query fails naming the column — is refuted by
`c6_counterexample`: a query rejected by an earlier stage produces an error
that names no column, and its DuckDB run fails too.) -/
theorem c6_partition_advisory (sql parsed col : List Char)
    (models : List (List Char)) (n : Nat)
    (hcne : col ≠ []) (hcolw : ∀ c ∈ col, wordChar c = true)
    (hn : guards.normalize sql = .ok parsed)
    (hs : guards.ensure_single_statement parsed = .ok ())
    (hr : guards.ensure_read_only parsed = .ok ())
    (hv : whylinedenver.validate_tables parsed models = .ok ())
    (hocc : ∃ a b, upperL sql = a ++ upperL col ++ b)
    (hnow : infixB (toL "WHERE") (upperL sql) = false) :
    whylinedenver.sanitize_sql sql
        { allowed_models := models, engine := toL "bigquery",
          partition_columns := [col], enforce_limit := n } =
      .error (.partitionNoWhere col) ∧
    (∃ a b, renderErr (.partitionNoWhere col) = a ++ col ++ b) ∧
    whylinedenver.sanitize_sql sql
        { allowed_models := models, engine := toL "duckdb",
          partition_columns := [col], enforce_limit := n } =
      .ok (guards.ensure_limit parsed n) := by
  have hwne : upperL col ≠ [] := fun h => hcne (upperL_eq_nil.mp h)
  have hcolwU : ∀ c ∈ upperL col, wordChar c = true := by
    intro c hc
    obtain ⟨d, hd, rfl⟩ := List.mem_map.mp hc
    rw [wordChar_upC]
    exact hcolw d hd
  have hoccp : ∃ a b, upperL parsed = a ++ upperL col ++ b :=
    infT_normalize hwne hcolwU hn hocc
  have hnowp : infixB (toL "WHERE") (upperL parsed) = false :=
    not_infix_upperL_of_normalize hn hnow
  have hoccl : infixB (upperL col)
      (upperL (guards.ensure_limit parsed n)) = true := by
    cases hls : limitSearch parsed with
    | true =>
      rw [ensure_limit_has_limit hls]
      exact infixB_iff.mpr hoccp
    | false =>
      rw [ensure_limit_no_limit hls]
      obtain ⟨a, b, hab⟩ := hoccp
      rw [infixB_iff]
      refine ⟨a, b ++ upperL (limitClause n), ?_⟩
      have hcl : parsed ++ toL "\nLIMIT " ++ natDigits n =
          parsed ++ limitClause n := by
        rw [limitClause, List.append_assoc]
      rw [hcl, upperL_append, hab]
      simp [List.append_assoc]
  have hnowl : infixB (toL "WHERE")
      (upperL (guards.ensure_limit parsed n)) = false := by
    cases hls : limitSearch parsed with
    | true =>
      rw [ensure_limit_has_limit hls]
      exact hnowp
    | false =>
      rw [ensure_limit_no_limit hls]
      cases hc : infixB (toL "WHERE")
          (upperL (parsed ++ toL "\nLIMIT " ++ natDigits n)) with
      | false => rfl
      | true =>
        exfalso
        rw [List.append_assoc, ← limitClause, upperL_append] at hc
        rcases infix_append_cases (by decide) hc with hin | ⟨c, hcw, hcl⟩
        · rw [hin] at hnowp
          exact absurd hnowp (by simp)
        · exact where_disjoint_clause hcw hcl
  have hspf : guards.suggest_partition_filter
      (guards.ensure_limit parsed n) [col] =
      .error (.partitionNoWhere col) := spf_error_of hoccl hnowl
  refine ⟨?_, ⟨toL "The query touches `",
    toL "` but no WHERE clause was provided. Please filter to a recent date range to keep the query efficient.",
    rfl⟩, ?_⟩
  · rw [wld_sanitize_big hn hs hr hv rfl]
    show (match guards.suggest_partition_filter
        (guards.ensure_limit parsed n) [col] with
       | .error e => Except.error e
       | .ok _ => .ok (guards.ensure_limit parsed n)) = _
    rw [hspf]
  · have hde : ¬(toL "duckdb") = toL "bigquery" := by decide
    rw [wld_sanitize_nonbig hn hs hr hv hde]

/-- Witness for C6 at the spec's concrete scenario: the partition column
`service_date_mst` occurs and `WHERE` does not. -/
theorem c6_witness :
    whylinedenver.sanitize_sql
        (toL "SELECT service_date_mst FROM mart_reliability_by_route_day")
        { allowed_models := [toL "mart_reliability_by_route_day"],
          engine := toL "bigquery",
          partition_columns := [toL "service_date_mst"],
          enforce_limit := 5000 } =
      .error (.partitionNoWhere (toL "service_date_mst")) ∧
    whylinedenver.sanitize_sql
        (toL "SELECT service_date_mst FROM mart_reliability_by_route_day")
        { allowed_models := [toL "mart_reliability_by_route_day"],
          engine := toL "duckdb",
          partition_columns := [toL "service_date_mst"],
          enforce_limit := 5000 } =
      .ok (guards.ensure_limit
        (toL "SELECT service_date_mst FROM mart_reliability_by_route_day")
        5000) := by
  have h := c6_partition_advisory
    (toL "SELECT service_date_mst FROM mart_reliability_by_route_day")
    (toL "SELECT service_date_mst FROM mart_reliability_by_route_day")
    (toL "service_date_mst") [toL "mart_reliability_by_route_day"] 5000
    (by decide) (by decide) (by decide) (by decide) (by decide) (by decide)
    ⟨toL "SELECT ", toL " FROM MART_RELIABILITY_BY_ROUTE_DAY", by decide⟩
    (by decide)
  exact ⟨h.1, h.2.2⟩

/-- C6 counterexample: `DROP TABLE service_date_mst` mentions the configured
partition column and contains no `WHERE`, yet the BigQuery run fails with
`notSelect` — an error naming no column — and the DuckDB run fails as well
instead of succeeding. -/
theorem c6_counterexample :
    infixB (upperL (toL "service_date_mst"))
        (upperL (toL "DROP TABLE service_date_mst")) = true ∧
    infixB (toL "WHERE")
        (upperL (toL "DROP TABLE service_date_mst")) = false ∧
    whylinedenver.sanitize_sql (toL "DROP TABLE service_date_mst")
        { allowed_models := [toL "service_date_mst"],
          engine := toL "bigquery" } = .error .notSelect ∧
    whylinedenver.sanitize_sql (toL "DROP TABLE service_date_mst")
        { allowed_models := [toL "service_date_mst"],
          engine := toL "duckdb" } = .error .notSelect := by
  decide

/-- C7: on success the returned string is the normalized input either
unchanged or with only a `LIMIT` clause appended — for every engine in the
whylinedenver revision and for every non-BigQuery engine in the whyline
revision.  (The fully general claim is refuted by `c7_counterexample`: the
whyline BigQuery path additionally backtick-quotes hyphenated table
references, altering the text.) -/
theorem c7_output_shape :
    (∀ (sql s : List Char) (cfg : whylinedenver.GuardrailConfig),
        whylinedenver.sanitize_sql sql cfg = .ok s →
        ∃ parsed, guards.normalize sql = .ok parsed ∧
          (s = parsed ∨ s = parsed ++ limitClause cfg.enforce_limit)) ∧
    (∀ (sql s : List Char) (cfg : whyline.GuardrailConfig),
        ¬cfg.engine = toL "bigquery" →
        whyline.sanitize_sql sql cfg = .ok s →
        ∃ parsed, guards.normalize sql = .ok parsed ∧
          (s = parsed ∨ s = parsed ++ limitClause cfg.enforce_limit)) := by
  constructor
  · intro sql s cfg h
    obtain ⟨parsed, hn, -, -, -, hout⟩ := wld_sanitize_ok_shape h
    refine ⟨parsed, hn, ?_⟩
    cases hls : limitSearch parsed with
    | true =>
      left
      rw [hout, ensure_limit_has_limit hls]
    | false =>
      right
      rw [hout, ensure_limit_no_limit hls, limitClause, List.append_assoc]
  · intro sql s cfg heng h
    obtain ⟨parsed, hn, -, -, -, hout⟩ := wl_sanitize_ok_shape h heng
    refine ⟨parsed, hn, ?_⟩
    cases hls : limitSearch parsed with
    | true =>
      left
      rw [hout, ensure_limit_has_limit hls]
    | false =>
      right
      rw [hout, ensure_limit_no_limit hls, limitClause, List.append_assoc]

/-- Witness for C7 at a LIMIT-free DuckDB query: the output is the parsed
statement plus the appended LIMIT clause. -/
theorem c7_witness :
    ∃ parsed, guards.normalize (toL "SELECT stop_id FROM mart_x") =
        .ok parsed ∧
      (toL "SELECT stop_id FROM mart_x\nLIMIT 5000" = parsed ∨
        toL "SELECT stop_id FROM mart_x\nLIMIT 5000" =
          parsed ++ limitClause 5000) :=
  c7_output_shape.1 (toL "SELECT stop_id FROM mart_x")
    (toL "SELECT stop_id FROM mart_x\nLIMIT 5000")
    { allowed_models := [toL "mart_x"], engine := toL "duckdb" } (by decide)

/-- C7 counterexample: on the whyline BigQuery path a hyphenated table
reference is rewritten in place (wrapped in backticks), so the successful
output is neither the normalized input nor the normalized input with only a
LIMIT clause appended. -/
theorem c7_counterexample :
    whyline.sanitize_sql (toL "SELECT x FROM pr-j.ds.t")
        { allowed_models := [toL "t"], engine := toL "bigquery" } =
      .ok (toL "SELECT x FROM `pr-j.ds.t`\nLIMIT 5000") ∧
    guards.normalize (toL "SELECT x FROM pr-j.ds.t") =
      .ok (toL "SELECT x FROM pr-j.ds.t") ∧
    ¬(toL "SELECT x FROM `pr-j.ds.t`\nLIMIT 5000" =
        toL "SELECT x FROM pr-j.ds.t" ∨
      toL "SELECT x FROM `pr-j.ds.t`\nLIMIT 5000" =
        toL "SELECT x FROM pr-j.ds.t" ++ limitClause 5000) := by
  decide

/-- A sanitized statement (normalized, possibly LIMIT-augmented) is a fixed
point of `_normalize`. -/
theorem sanitized_normalize {parsed : List Char} (n : Nat)
    (hh : ∀ c, parsed.head? = some c → pySpace c = false)
    (hl : ∀ c, parsed.getLast? = some c → pySpace c = false)
    (hsemi : (';' : Char) ∉ parsed)
    (hne : parsed ≠ []) :
    guards.normalize (guards.ensure_limit parsed n) =
      .ok (guards.ensure_limit parsed n) := by
  have hdefN : ∀ t : List Char, guards.normalize t =
      (if pystrip t = [] then .error .noSql
       else if (pystrip t).getLastD ' ' = ';' then
         .ok (pystrip (pystrip t).dropLast)
       else .ok (pystrip t)) := fun t => rfl
  cases hls : limitSearch parsed with
  | true =>
    rw [ensure_limit_has_limit hls, hdefN]
    have hps : pystrip parsed = parsed := pystrip_eq_self hh hl
    rw [hps, if_neg hne, if_neg (fun h =>
      hsemi (mem_of_getLast?_eq (getLastD_semi_getLast? hne h)))]
  | false =>
    rw [ensure_limit_no_limit hls, hdefN]
    obtain ⟨d, hd⟩ : ∃ d, (natDigits n).getLast? = some d := by
      cases hg : (natDigits n).getLast? with
      | none =>
        exact absurd (List.getLast?_eq_none_iff.mp hg) (natDigits_ne_nil n)
      | some d => exact ⟨d, rfl⟩
    have hdd : isDigitC d = true := natDigits_getLast_digit hd
    have hlaste : (parsed ++ toL "\nLIMIT " ++ natDigits n).getLast? =
        some d := by
      rw [getLast?_append_right (natDigits_ne_nil n), hd]
    have hheade : ∀ c,
        (parsed ++ toL "\nLIMIT " ++ natDigits n).head? = some c →
        pySpace c = false := by
      intro c hc
      rw [head?_append_left (by
          cases parsed with
          | nil => exact absurd rfl hne
          | cons x t => simp),
        head?_append_left hne] at hc
      exact hh c hc
    have hle : ∀ c,
        (parsed ++ toL "\nLIMIT " ++ natDigits n).getLast? = some c →
        pySpace c = false := by
      intro c hc
      rw [hlaste] at hc
      simp only [Option.some.injEq] at hc
      subst hc
      exact isDigitC_not_pySpace hdd
    have hps : pystrip (parsed ++ toL "\nLIMIT " ++ natDigits n) =
        parsed ++ toL "\nLIMIT " ++ natDigits n :=
      pystrip_eq_self hheade hle
    have hene : parsed ++ toL "\nLIMIT " ++ natDigits n ≠ [] := by
      intro h
      have := congrArg List.length h
      simp at this
      exact absurd this.2.2 (by
        have := natDigits_ne_nil n
        simp [List.length_eq_zero] at this ⊢
        exact this)
    have hnsemi :
        ¬((parsed ++ toL "\nLIMIT " ++ natDigits n).getLastD ' ' = ';') := by
      intro hsem
      have h2 := getLastD_semi_getLast? hene hsem
      rw [hlaste] at h2
      simp only [Option.some.injEq] at h2
      rw [h2] at hdd
      exact absurd hdd (by decide)
    rw [hps, if_neg hene, if_neg hnsemi]

/-- C10: `sanitize_sql` is idempotent on its successes when the success
survives a second pass and no BigQuery rewriting is involved — for the
whylinedenver revision on every engine where both passes succeed, and for the
whyline revision on non-BigQuery engines; the LIMIT stage itself is
unconditionally idempotent, and the hyphen-quoting replacer leaves an already
fully-backtick-quoted token unchanged.  (The unconditional claim is refuted
by `c10_counterexample`: a second pass can reject a first-pass success — the
appended `LIMIT` is parsed as a table named `limit` — and on the whyline
BigQuery path a partially quoted hyphenated reference is re-quoted into a
different string.) -/
theorem c10_success_idempotence :
    (∀ (sql s s2 : List Char) (cfg : whylinedenver.GuardrailConfig),
        whylinedenver.sanitize_sql sql cfg = .ok s →
        whylinedenver.sanitize_sql s cfg = .ok s2 → s2 = s) ∧
    (∀ (sql s s2 : List Char) (cfg : whyline.GuardrailConfig),
        ¬cfg.engine = toL "bigquery" →
        whyline.sanitize_sql sql cfg = .ok s →
        whyline.sanitize_sql s cfg = .ok s2 → s2 = s) ∧
    (∀ (sql : List Char) (n : Nat),
        guards.ensure_limit (guards.ensure_limit sql n) n =
          guards.ensure_limit sql n) ∧
    (∀ m : TM, m.token.head? = some btick → m.token.getLastD ' ' = btick →
        whyline.quote_replacer m = m.group0) := by
  refine ⟨?_, ?_, fun sql n => ensure_limit_idem sql n, ?_⟩
  · intro sql s s2 cfg h1 h2
    obtain ⟨parsed, hn, hss, hro, -, hout⟩ := wld_sanitize_ok_shape h1
    obtain ⟨parsed2, hn2, -, -, -, hout2⟩ := wld_sanitize_ok_shape h2
    have hh : ∀ c, parsed.head? = some c → pySpace c = false := fun c hc =>
      pystrip_head_not (by rw [normalize_ok_pystrip hn]; exact hc)
    have hl : ∀ c, parsed.getLast? = some c → pySpace c = false := fun c hc =>
      pystrip_getLast_not (by rw [normalize_ok_pystrip hn]; exact hc)
    have hnorm2 : guards.normalize s = .ok s := by
      rw [hout]
      exact sanitized_normalize cfg.enforce_limit hh hl
        (ensure_single_ok_no_semi hss) (read_only_ok_ne_nil hro)
    rw [hnorm2] at hn2
    simp only [Except.ok.injEq] at hn2
    rw [hout2, ← hn2, hout]
    exact ensure_limit_idem parsed cfg.enforce_limit
  · intro sql s s2 cfg heng h1 h2
    obtain ⟨parsed, hn, hss, hro, -, hout⟩ := wl_sanitize_ok_shape h1 heng
    obtain ⟨parsed2, hn2, -, -, -, hout2⟩ := wl_sanitize_ok_shape h2 heng
    have hh : ∀ c, parsed.head? = some c → pySpace c = false := fun c hc =>
      pystrip_head_not (by rw [normalize_ok_pystrip hn]; exact hc)
    have hl : ∀ c, parsed.getLast? = some c → pySpace c = false := fun c hc =>
      pystrip_getLast_not (by rw [normalize_ok_pystrip hn]; exact hc)
    have hnorm2 : guards.normalize s = .ok s := by
      rw [hout]
      exact sanitized_normalize cfg.enforce_limit hh hl
        (ensure_single_ok_no_semi hss) (read_only_ok_ne_nil hro)
    rw [hnorm2] at hn2
    simp only [Except.ok.injEq] at hn2
    rw [hout2, ← hn2, hout]
    exact ensure_limit_idem parsed cfg.enforce_limit
  · intro m h1 h2
    have hdef : whyline.quote_replacer m =
        (if m.token.head? = some btick ∧ m.token.getLastD ' ' = btick then
          m.group0
         else if !(m.token.contains '-') then m.group0
         else m.clause ++ m.spaces ++ (btick :: m.token ++ [btick])) := rfl
    rw [hdef, if_pos ⟨h1, h2⟩]

/-- Witness for C10: a first-pass success fed back through the sanitizer
comes out unchanged. -/
theorem c10_witness :
    whylinedenver.sanitize_sql (toL "SELECT stop_id FROM mart_x")
        { allowed_models := [toL "mart_x"], engine := toL "duckdb" } =
      .ok (toL "SELECT stop_id FROM mart_x\nLIMIT 5000") ∧
    toL "SELECT stop_id FROM mart_x\nLIMIT 5000" =
      toL "SELECT stop_id FROM mart_x\nLIMIT 5000" :=
  ⟨by decide,
    c10_success_idempotence.1 (toL "SELECT stop_id FROM mart_x")
      (toL "SELECT stop_id FROM mart_x\nLIMIT 5000")
      (toL "SELECT stop_id FROM mart_x\nLIMIT 5000")
      { allowed_models := [toL "mart_x"], engine := toL "duckdb" }
      (by decide) (by decide)⟩

/-- C10 counterexample: (a) the appended `LIMIT` clause makes the second pass
parse `limit` as a referenced table and reject a first-pass success; (b) on
the whyline BigQuery path a four-segment hyphenated reference is quoted into
`` `a.b.c-d`.e ``, which the second pass re-quotes into a different string —
so a second pass neither always succeeds nor returns its input unchanged. -/
theorem c10_counterexample :
    (whylinedenver.sanitize_sql (toL "SELECT x FROM")
        { allowed_models := [], engine := toL "duckdb" } =
      .ok (toL "SELECT x FROM\nLIMIT 5000") ∧
     whylinedenver.sanitize_sql (toL "SELECT x FROM\nLIMIT 5000")
        { allowed_models := [], engine := toL "duckdb" } =
      .error (.unauthorizedTables [toL "limit"])) ∧
    (whyline.sanitize_sql (toL "SELECT z FROM a.b.c-d.e")
        { allowed_models := [toL "c-d", toL "e"], engine := toL "bigquery" } =
      .ok (toL "SELECT z FROM `a.b.c-d`.e\nLIMIT 5000") ∧
     whyline.sanitize_sql (toL "SELECT z FROM `a.b.c-d`.e\nLIMIT 5000")
        { allowed_models := [toL "c-d", toL "e"], engine := toL "bigquery" } =
      .ok (toL "SELECT z FROM ``a.b.c-d`.e`\nLIMIT 5000") ∧
     ¬(toL "SELECT z FROM ``a.b.c-d`.e`\nLIMIT 5000" =
        toL "SELECT z FROM `a.b.c-d`.e\nLIMIT 5000")) := by
  decide

/-- The fuel of the `DATE_SUB` substitution worker is irrelevant once it
covers the text length. -/
theorem dsSubstF_irrel : ∀ {f1 f2 : Nat} (s : List Char),
    s.length ≤ f1 → s.length ≤ f2 → dsSubstF f1 s = dsSubstF f2 s := by
  intro f1
  induction f1 with
  | zero =>
    intro f2 s h1 h2
    have hs : s = [] := List.length_eq_zero.mp (Nat.le_zero.mp h1)
    subst hs
    cases f2 with
    | zero => rfl
    | succ m => rfl
  | succ n ih =>
    intro f2 s h1 h2
    cases s with
    | nil =>
      cases f2 with
      | zero => rfl
      | succ m => rfl
    | cons c rest =>
      cases f2 with
      | zero => exact absurd h2 (by simp)
      | succ m =>
        simp only [dsSubstF]
        cases hm : dsMatchAt (c :: rest) with
        | none =>
          simp only [List.length_cons] at h1 h2
          show c :: dsSubstF n rest = c :: dsSubstF m rest
          rw [@ih m rest (by omega) (by omega)]
        | some r =>
          obtain ⟨expr, digits, k⟩ := r
          have hk := k.property
          have hlen : ((c :: rest).drop k.val).length ≤ n ∧
              ((c :: rest).drop k.val).length ≤ m := by
            rw [List.length_drop]
            simp only [List.length_cons] at h1 h2 ⊢
            omega
          show pystrip expr ++ toL " - INTERVAL '" ++ digits ++ toL "' DAY" ++
              dsSubstF n ((c :: rest).drop k.val) =
            pystrip expr ++ toL " - INTERVAL '" ++ digits ++ toL "' DAY" ++
              dsSubstF m ((c :: rest).drop k.val)
          rw [ih ((c :: rest).drop k.val) hlen.1 hlen.2]

/-- C9: for engine `duckdb`, `adapt_sql_for_engine` is exactly the
`DATE_SUB_PATTERN` substitution; at every match the substitution emits
`<stripped expr> - INTERVAL '<digits>' DAY` and continues after the match,
while a non-matching head character passes through unchanged; and the spec's
concrete round-trip produces its exact expected output. -/
theorem c9_duckdb_date_sub :
    (∀ (proj ds sql : List Char)
        (models : List (List Char × llm.ModelInfo)),
        llm.adapt_sql_for_engine proj ds sql (toL "duckdb") models =
          dsSubst sql) ∧
    (∀ (s expr digits : List Char) (k : { k : Nat // 0 < k }),
        dsMatchAt s = some (expr, digits, k) →
        dsSubst s = pystrip expr ++ toL " - INTERVAL '" ++ digits ++
          toL "' DAY" ++ dsSubst (s.drop k.val)) ∧
    (∀ (c : Char) (rest : List Char), dsMatchAt (c :: rest) = none →
        dsSubst (c :: rest) = c :: dsSubst rest) ∧
    llm.adapt_sql_for_engine (toL "p") (toL "d")
        (toL "SELECT * FROM mart_x WHERE d >= DATE_SUB(CURRENT_DATE(), INTERVAL 30 DAY)")
        (toL "duckdb") [] =
      toL "SELECT * FROM mart_x WHERE d >= CURRENT_DATE() - INTERVAL '30' DAY" := by
  refine ⟨?_, ?_, ?_, by decide⟩
  · intro proj ds sql models
    have hdef : llm.adapt_sql_for_engine proj ds sql (toL "duckdb") models =
        (if toL "duckdb" = toL "bigquery" ∧ models ≠ [] then
          llm.qualify_bigquery_tables proj ds models
            (if toL "duckdb" = toL "duckdb" then dsSubst sql else sql)
         else (if toL "duckdb" = toL "duckdb" then dsSubst sql else sql)) :=
      rfl
    rw [hdef, if_neg (fun h => absurd h.1 (by decide)), if_pos rfl]
  · intro s expr digits k hm
    cases s with
    | nil =>
      rw [show dsMatchAt [] = none from rfl] at hm
      exact absurd hm (by simp)
    | cons c rest =>
      show dsSubstF (c :: rest).length (c :: rest) = _
      rw [List.length_cons]
      simp only [dsSubstF, hm]
      have hk := k.property
      rw [dsSubst, dsSubstF_irrel ((c :: rest).drop k.val)
        (by rw [List.length_drop]; simp; omega) (le_refl _)]
  · intro c rest hnone
    show dsSubstF (c :: rest).length (c :: rest) = c :: dsSubst rest
    rw [List.length_cons]
    simp only [dsSubstF, hnone]
    rfl

/-- Witness for C9 at the concrete `DATE_SUB` call and at a non-matching
head. -/
theorem c9_witness :
    dsSubst (toL "DATE_SUB(CURRENT_DATE(), INTERVAL 30 DAY)") =
      pystrip (toL "CURRENT_DATE()") ++ toL " - INTERVAL '" ++ toL "30" ++
        toL "' DAY" ++
        dsSubst ((toL "DATE_SUB(CURRENT_DATE(), INTERVAL 30 DAY)").drop 41) ∧
    dsSubst (toL "SELECT 1") = 'S' :: dsSubst (toL "ELECT 1") := by
  constructor
  · exact c9_duckdb_date_sub.2.1 (toL "DATE_SUB(CURRENT_DATE(), INTERVAL 30 DAY)")
      (toL "CURRENT_DATE()") (toL "30") ⟨41, by omega⟩ (by decide)
  · exact c9_duckdb_date_sub.2.2.1 'S' (toL "ELECT 1") (by decide)

/-- C8: for engine `bigquery` with a non-empty models map,
`adapt_sql_for_engine` is the `TABLE_PATTERN` substitution with the
qualifying replacer over the query's CTE names; per match, the replacer
leaves CTE references and dotted references untouched and rewrites any other
token into a backtick-quoted `project.dataset.table` using the matching
model's canonical name when present and the raw token otherwise; the spec's
multi-clause example rewrites exactly as described.  (The claim's "rewrites
every bare reference" is refuted by `c8_counterexample`: the pattern's alias
group can swallow a following `JOIN`, so a later bare reference is never
matched and stays unqualified.) -/
theorem c8_bigquery_qualification :
    (∀ (proj ds sql engine : List Char)
        (models : List (List Char × llm.ModelInfo)),
        engine = toL "bigquery" → models ≠ [] →
        llm.adapt_sql_for_engine proj ds sql engine models =
          llm.qualify_bigquery_tables proj ds models sql) ∧
    (∀ (proj ds sql : List Char)
        (models : List (List Char × llm.ModelInfo)),
        llm.qualify_bigquery_tables proj ds models sql =
          tableSubA (llm.qualify_replacer
            ((cteFindAll true sql).map (fun n => lowerL (stripBT n)))
            models proj ds) sql) ∧
    (∀ (ctes : List (List Char)) (models : List (List Char × llm.ModelInfo))
        (proj ds : List Char) (m : TM),
        (ctes.contains (lowerL (stripBT m.token)) = true →
          llm.qualify_replacer ctes models proj ds m = m.group0) ∧
        ((stripBT m.token).contains '.' = true →
          llm.qualify_replacer ctes models proj ds m = m.group0) ∧
        (¬ctes.contains (lowerL (stripBT m.token)) = true →
          ¬(stripBT m.token).contains '.' = true →
          ∀ mi, List.lookup (stripBT m.token) models = some mi →
            llm.qualify_replacer ctes models proj ds m =
              m.clause ++ [' '] ++
                (btick :: (proj ++ '.' :: ds ++ '.' :: mi.name) ++ [btick]) ++
                m.aliasTxt) ∧
        (¬ctes.contains (lowerL (stripBT m.token)) = true →
          ¬(stripBT m.token).contains '.' = true →
          List.lookup (stripBT m.token) models = none →
            llm.qualify_replacer ctes models proj ds m =
              m.clause ++ [' '] ++
                (btick :: (proj ++ '.' :: ds ++ '.' :: stripBT m.token) ++
                  [btick]) ++ m.aliasTxt)) ∧
    llm.adapt_sql_for_engine (toL "whyline-denver") (toL "mart_denver")
        (toL "WITH c AS (SELECT 1) SELECT * FROM mart_x JOIN c ON 1=1 JOIN p.d.t ON 1=1")
        (toL "bigquery") [(toL "mart_x", ⟨toL "mart_access", toL "x", none⟩)] =
      toL "WITH c AS (SELECT 1) SELECT * FROM `whyline-denver.mart_denver.mart_access` JOIN c ON 1=1 JOIN p.d.t ON 1=1" := by
  have hrepl : ∀ (ctes : List (List Char))
      (models : List (List Char × llm.ModelInfo)) (proj ds : List Char)
      (m : TM), llm.qualify_replacer ctes models proj ds m =
      (if ctes.contains (lowerL (stripBT m.token)) then m.group0
       else if (stripBT m.token).contains '.' then m.group0
       else m.clause ++ [' '] ++
         (btick :: (proj ++ '.' :: ds ++ '.' ::
           (match List.lookup (stripBT m.token) models with
            | some mi => mi.name
            | none => stripBT m.token)) ++ [btick]) ++ m.aliasTxt) :=
    fun _ _ _ _ _ => rfl
  refine ⟨?_, fun _ _ _ _ => rfl, ?_, by decide⟩
  · intro proj ds sql engine models heng hm
    subst heng
    have hdef : llm.adapt_sql_for_engine proj ds sql (toL "bigquery")
        models =
        (if toL "bigquery" = toL "bigquery" ∧ models ≠ [] then
          llm.qualify_bigquery_tables proj ds models
            (if toL "bigquery" = toL "duckdb" then dsSubst sql else sql)
         else (if toL "bigquery" = toL "duckdb" then dsSubst sql
           else sql)) := rfl
    rw [hdef, if_neg (show ¬(toL "bigquery" = toL "duckdb") by decide),
      if_pos ⟨rfl, hm⟩]
  · intro ctes models proj ds m
    refine ⟨?_, ?_, ?_, ?_⟩
    · intro h1
      rw [hrepl, if_pos h1]
    · intro h2
      by_cases h1 : ctes.contains (lowerL (stripBT m.token)) = true
      · rw [hrepl, if_pos h1]
      · rw [hrepl, if_neg h1, if_pos h2]
    · intro h1 h2 mi hlk
      rw [hrepl, if_neg h1, if_neg h2]
      simp only [hlk]
    · intro h1 h2 hlk
      rw [hrepl, if_neg h1, if_neg h2]
      simp only [hlk]

/-- Witness for C8: a CTE token, a dotted token and a bare token with and
without a catalog entry, each through the replacer. -/
theorem c8_witness :
    llm.qualify_replacer [toL "c"] [] (toL "p") (toL "d")
        ⟨[], toL "FROM c", 1, 1, 0⟩ =
      (⟨[], toL "FROM c", 1, 1, 0⟩ : TM).group0 ∧
    llm.qualify_replacer [] [] (toL "p") (toL "d")
        ⟨[], toL "FROM a.b", 1, 3, 0⟩ =
      (⟨[], toL "FROM a.b", 1, 3, 0⟩ : TM).group0 ∧
    llm.qualify_replacer [] [(toL "t", ⟨toL "mart_t", toL "x", none⟩)]
        (toL "p") (toL "d") ⟨[], toL "FROM t", 1, 1, 0⟩ =
      (⟨[], toL "FROM t", 1, 1, 0⟩ : TM).clause ++ [' '] ++
        (btick :: (toL "p" ++ '.' :: toL "d" ++ '.' :: toL "mart_t") ++
          [btick]) ++ (⟨[], toL "FROM t", 1, 1, 0⟩ : TM).aliasTxt ∧
    llm.qualify_replacer [] [(toL "z", ⟨toL "mart_z", toL "x", none⟩)]
        (toL "p") (toL "d") ⟨[], toL "FROM t", 1, 1, 0⟩ =
      (⟨[], toL "FROM t", 1, 1, 0⟩ : TM).clause ++ [' '] ++
        (btick :: (toL "p" ++ '.' :: toL "d" ++ '.' ::
          stripBT (⟨[], toL "FROM t", 1, 1, 0⟩ : TM).token) ++
          [btick]) ++ (⟨[], toL "FROM t", 1, 1, 0⟩ : TM).aliasTxt := by
  refine ⟨?_, ?_, ?_, ?_⟩
  · exact (c8_bigquery_qualification.2.2.1 [toL "c"] [] (toL "p") (toL "d")
      ⟨[], toL "FROM c", 1, 1, 0⟩).1 (by decide)
  · exact (c8_bigquery_qualification.2.2.1 [] [] (toL "p") (toL "d")
      ⟨[], toL "FROM a.b", 1, 3, 0⟩).2.1 (by decide)
  · exact (c8_bigquery_qualification.2.2.1 []
      [(toL "t", ⟨toL "mart_t", toL "x", none⟩)] (toL "p") (toL "d")
      ⟨[], toL "FROM t", 1, 1, 0⟩).2.2.1 (by decide) (by decide)
      ⟨toL "mart_t", toL "x", none⟩ (by decide)
  · exact (c8_bigquery_qualification.2.2.1 []
      [(toL "z", ⟨toL "mart_z", toL "x", none⟩)] (toL "p") (toL "d")
      ⟨[], toL "FROM t", 1, 1, 0⟩).2.2.2 (by decide) (by decide) (by decide)

/-- C8 counterexample: in `SELECT * FROM a JOIN b ON 1=1` both `a` and `b`
are bare non-CTE table references, but the alias group of the match at `a`
swallows ` JOIN`, so `b` is never matched: the adapted output qualifies `a`
and leaves `b` bare. -/
theorem c8_counterexample :
    tableTokens (toL "SELECT * FROM a JOIN b ON 1=1") =
      [toL "a", toL "b"] ∧
    (tableMatchesA (toL "SELECT * FROM a JOIN b ON 1=1")).map
        (fun m => (m.token, m.aliasTxt)) = [(toL "a", toL " JOIN")] ∧
    llm.adapt_sql_for_engine (toL "p") (toL "d")
        (toL "SELECT * FROM a JOIN b ON 1=1") (toL "bigquery")
        [(toL "a", ⟨toL "a", toL "p.d.a", none⟩),
         (toL "b", ⟨toL "b", toL "p.d.b", none⟩)] =
      toL "SELECT * FROM `p.d.a` JOIN b ON 1=1" := by
  decide
